import Mathlib

/-!
Verification development for the analytics aggregation engine of the
TheLuxMining admin console (file src/app/services/admin-dashboard.service.ts).

The TypeScript source is shallowly embedded: JavaScript numbers are modelled
as rationals, instants (millisecond timestamps) as integers, JavaScript Date
values as civil calendar records, and the loosely typed Firestore record
shapes as inductive value types.  Fallible operations are modelled with
Option and Except.  Stateful pieces (the currency cache) are modelled by
explicit state passing.
-/

namespace LuxMining

/-! ## JavaScript numeric helpers

Math.round rounds half toward positive infinity, which is exactly the
Mathlib round function on rationals. -/

/-- Model of the JavaScript expression Math.round(x * 10) / 10. -/
def round1 (q : ℚ) : ℚ := (round (q * 10) : ℚ) / 10

/-- Model of the JavaScript expression Math.round(x * 100) / 100. -/
def round2 (q : ℚ) : ℚ := (round (q * 100) : ℚ) / 100

/-! ## Metric comparator: calculateChange (admin-dashboard.service.ts:605) -/

/-- Embedding of calculateChange.  Source:
if previous is 0 return 0 when current is 0 and null otherwise; else
compute ((current - previous) / previous) * 100, return null when not
finite, else round to one decimal.  Over the rationals the computed change
is always finite, so the non-finite branch never fires. -/
def calculateChange (current previous : ℚ) : Option ℚ :=
  if previous = 0 then
    if current = 0 then some 0 else none
  else
    some (round1 ((current - previous) / previous * 100))

/-! ## Single-flight currency resolver (admin-dashboard.service.ts:239)

The settings fetch is modelled as an Except value: an error for a rejected
promise, otherwise the optional stripeCurrency string from the settings
document.  The private mutable field cachedCurrencyCode is the explicit
state.  The in-flight resolver promise is cleared by the finally handler
before any caller resumes, so a sequential model only needs the cache. -/

/-- Uppercase conversion over the character data of a string; models
String.prototype.toUpperCase for ASCII payloads such as currency codes. -/
def jsToUpper (s : String) : String :=
  ⟨s.data.map (fun c => if 'a' ≤ c ∧ c ≤ 'z' then Char.ofNat (c.toNat - 32) else c)⟩

/-- Value produced by the resolver promise chain
getSettings().then(s => (s.stripeCurrency || USD).toUpperCase()).catch(() => USD).
A missing or empty stripeCurrency is falsy and defaults to USD; a rejected
fetch resolves to USD via the catch handler. -/
def resolverOutcome (fetch : Except Unit (Option String)) : String :=
  match fetch with
  | .error _ => "USD"
  | .ok s? =>
    match s? with
    | none => jsToUpper "USD"
    | some s => if s = "" then jsToUpper "USD" else jsToUpper s

/-- State of the AdminDashboardService currency cache. -/
structure CurrencyCache where
  cachedCurrencyCode : Option String
  deriving DecidableEq

/-- Embedding of one sequential call to resolveCurrencyCode.  Returns the
resolved code, the cache state after the call, and whether the underlying
settings fetch was performed.  The cached code is returned directly when
present (it is never the empty string, so the JavaScript truthiness test
coincides with Option.isSome); otherwise the resolver promise is created,
awaited, and its value stored into the cache. -/
def resolveCurrencyCode (st : CurrencyCache) (fetch : Except Unit (Option String)) :
    String × CurrencyCache × Bool :=
  match st.cachedCurrencyCode with
  | some c => (c, st, false)
  | none =>
    let v := resolverOutcome fetch
    (v, ⟨some v⟩, true)

/-- Values observed by n concurrent callers awaiting the same in-flight
resolver promise: each receives the single resolver outcome. -/
def currencyWaiters (n : Nat) (fetch : Except Unit (Option String)) : List String :=
  List.replicate n (resolverOutcome fetch)

/-! ## Timestamp extraction (admin-dashboard.service.ts:559)

An instant is an integer count of milliseconds.  The heterogeneous
timestamp field values are modelled by an inductive covering the branches
of extractTimestamp: a Firestore Timestamp (or any object carrying a
toDate method), a raw number, a string together with its Date.parse result,
an object with a seconds field, and any other shape. -/

inductive TSVal where
  /-- Firestore Timestamp or toDate-carrying object, holding its instant. -/
  | timestamp (ms : Int)
  /-- Raw numeric millisecond value. -/
  | num (ms : Int)
  /-- String value with the result of Date.parse (none when NaN).  The
  empty string is falsy and Date.parse of it is NaN, so both roads lead to
  the same result and emptiness needs no separate flag. -/
  | str (parsed : Option Int)
  /-- Plain object with a seconds field. -/
  | secondsObj (seconds : Int)
  /-- Any other shape: falls through every branch. -/
  | other
  deriving DecidableEq

/-- Embedding of extractTimestamp.  The parameter now is the wall clock at
the moment of the call (the value of new Date()).  A missing or falsy
value (null, undefined, the number 0, the empty string) yields now; a
recognized carrier yields its instant; an unparseable string or an
unrecognized shape yields now. -/
def extractTimestamp (now : Int) : Option TSVal → Int
  | none => now
  | some v =>
    match v with
    | .timestamp ms => ms
    | .num ms => if ms = 0 then now else ms
    | .str parsed =>
      match parsed with
      | none => now
      | some ms => ms
    | .secondsObj s => s * 1000
    | .other => now

/-! ## Numeric field coercion used by the fallback scans

The source reads an amount as
typeof v === number ? v : Number(v ?? 0) and adds it only when the result
is not NaN.  The possible field contents are modelled below; none at the
record level stands for a missing field (Number(0) = 0). -/

inductive NumVal where
  /-- A native (finite) number. -/
  | num (q : ℚ)
  /-- A string, with its Number(...) coercion (none when NaN). -/
  | str (parsed : Option ℚ)
  /-- Any other shape, coercing to NaN. -/
  | other
  deriving DecidableEq

/-- Coercion of an optional amount field as performed by the fallback
scans: a missing field coerces to 0, a native number to itself, a string
to its parse, anything else to NaN (modelled as none). -/
def coerceTotal : Option NumVal → Option ℚ
  | none => some 0
  | some (.num q) => some q
  | some (.str p) => p
  | some .other => none

/-! ## Resilient order aggregation (admin-dashboard.service.ts:680)

A stored order record, restricted to the fields the aggregator reads. -/

structure OrderRec where
  createdAt : Option TSVal
  total : Option NumVal
  deriving DecidableEq

/-- Aggregation result of aggregateOrders. -/
structure AggResult where
  count : Nat
  revenue : ℚ
  average : ℚ
  deriving DecidableEq

/-- Accumulator step of the fallback scan in aggregateOrders: extract the
timestamp (dating missing fields at now), test membership in the half-open
range, and accumulate count and coerced revenue. -/
def fallbackStep (now rStart rEnd : Int) (acc : Nat × ℚ) (r : OrderRec) : Nat × ℚ :=
  let ts := extractTimestamp now r.createdAt
  if rStart ≤ ts ∧ ts < rEnd then
    (acc.1 + 1,
      match coerceTotal r.total with
      | some q => acc.2 + q
      | none => acc.2)
  else acc

/-- Embedding of the catch branch of aggregateOrders: fetch every order
record and accumulate count and revenue in process, then round. -/
def aggregateOrdersFallback (now rStart rEnd : Int) (docs : List OrderRec) : AggResult :=
  let acc := docs.foldl (fallbackStep now rStart rEnd) (0, 0)
  { count := acc.1
    revenue := round2 acc.2
    average := round2 (if 0 < acc.1 then acc.2 / acc.1 else 0) }

/-- Modelled from the spec: the server-side aggregate path of
aggregateOrders, which the repository consumes through the Record Store
capability (getAggregateFromServer with a count and a sum over the range
constraints on createdAt).  A record matches the range filter exactly when
its createdAt field holds a native timestamp inside the half-open range,
and the sum gathers the total field of matching records when it holds a
native number, ignoring missing and non-numeric values. -/
def serverMatches (rStart rEnd : Int) (r : OrderRec) : Bool :=
  match r.createdAt with
  | some (.timestamp ms) => rStart ≤ ms ∧ ms < rEnd
  | _ => false

/-- Modelled from the spec: the numeric value a record contributes to the
server sum over the total field; non-numeric and missing values contribute
nothing. -/
def serverContribution (r : OrderRec) : ℚ :=
  match r.total with
  | some (.num q) => q
  | _ => 0

/-- Modelled from the spec: numeric sum aggregated by the server over the
records matching the range filter. -/
def serverSum (docs : List OrderRec) : ℚ :=
  (docs.map serverContribution).sum

/-- Modelled from the spec: the try branch of aggregateOrders built from
the server count and server sum, with the same rounding as the source. -/
def aggregateOrdersServer (rStart rEnd : Int) (docs : List OrderRec) : AggResult :=
  let ms := docs.filter (serverMatches rStart rEnd)
  let c := ms.length
  let s := serverSum ms
  { count := c
    revenue := round2 s
    average := round2 (if 0 < c then s / c else 0) }

/-- Well-formedness of a stored order record: the timestamp field carries a
native timestamp and the amount field, when present, a native number.
This is the shape the application itself writes. -/
def OrderRec.WellFormed (r : OrderRec) : Prop :=
  (∃ ms, r.createdAt = some (.timestamp ms)) ∧
    (r.total = none ∨ ∃ q, r.total = some (.num q))

/-! ## Resilient range counting (admin-dashboard.service.ts:735)

A record as seen by countDocumentsInRange: the primary timestamp field,
the optional fallback timestamp field, and the boolean outcome of the
additional filter (the server-side additionalFilters constraint and the
in-process filterPredicate test the same condition on the same data). -/

structure CountRec where
  tsField : Option TSVal
  fallbackField : Option TSVal
  passesFilter : Bool
  deriving DecidableEq

/-- Embedding of the catch branch of countDocumentsInRange: scan every
record, apply the filter predicate, date the record from the primary field
falling back to the fallback field, and count range membership. -/
def countInRangeFallback (now rStart rEnd : Int) (docs : List CountRec) : Nat :=
  docs.foldl
    (fun c r =>
      if !r.passesFilter then c
      else
        let ts := extractTimestamp now (r.tsField.or r.fallbackField)
        if rStart ≤ ts ∧ ts < rEnd then c + 1 else c) 0

/-- Modelled from the spec: the server count over the range constraints on
the primary timestamp field conjoined with the additional filters; the
fallback timestamp field does not participate in the server query. -/
def countInRangeServer (rStart rEnd : Int) (docs : List CountRec) : Nat :=
  (docs.filter
    (fun r =>
      r.passesFilter &&
        match r.tsField with
        | some (.timestamp ms) => decide (rStart ≤ ms ∧ ms < rEnd)
        | _ => false)).length

/-- Well-formedness of a counted record: the primary timestamp field holds
a native timestamp. -/
def CountRec.WellFormed (r : CountRec) : Prop :=
  ∃ ms, r.tsField = some (.timestamp ms)

/-! ## JavaScript Date model

A JavaScript Date is stored as milliseconds since the epoch and observed
through local civil calendar components.  The embedding represents a Date
directly by its civil components (year, zero-based month, day of month,
milliseconds within the day); a date is Normalized when the components are
in range, and the derived getTime recovers the linear instant.  Local time
is modelled as a uniform timeline (no daylight-saving jumps), matching the
proleptic Gregorian calendar that Date component arithmetic uses. -/

structure JSDate where
  year : Int
  month : Nat
  day : Int
  todMs : Int
  deriving DecidableEq

/-- Gregorian leap-year test. -/
def isLeap (y : Int) : Bool :=
  y % 4 = 0 && (y % 100 != 0 || y % 400 = 0)

/-- Length of a zero-based month (months at index 12 and beyond do not
occur in normalized dates and default to 31). -/
def daysInMonth (y : Int) (m : Nat) : Int :=
  if m = 1 then (if isLeap y then 29 else 28)
  else if m = 3 ∨ m = 5 ∨ m = 8 ∨ m = 10 then 30
  else 31

/-- Calendar month preceding (y, m). -/
def prevMonth (y : Int) (m : Nat) : Int × Nat :=
  if m = 0 then (y - 1, 11) else (y, m - 1)

/-- Calendar month following (y, m). -/
def nextMonth (y : Int) (m : Nat) : Int × Nat :=
  if m = 11 then (y + 1, 0) else (y, m + 1)

/-- Normalization of an arbitrary integer month index into a year and a
zero-based month, as the Date component setters do. -/
def normMonth (y : Int) (mi : Int) : Int × Nat :=
  (y + mi / 12, (mi % 12).toNat)

/-- Fuelled backward day normalization: while the day of month is below 1,
step to the previous month and add its length.  The fuel passed by mkDate
always suffices, since every step increases the day by at least 28. -/
def borrowAux : Nat → Int → Nat → Int → Int × Nat × Int
  | 0, y, m, d => (y, m, d)
  | fuel + 1, y, m, d =>
    if 1 ≤ d then (y, m, d)
    else
      let p := prevMonth y m
      borrowAux fuel p.1 p.2 (d + daysInMonth p.1 p.2)

/-- Fuelled forward day normalization: while the day of month exceeds the
month length, subtract it and step to the next month. -/
def carryAux : Nat → Int → Nat → Int → Int × Nat × Int
  | 0, y, m, d => (y, m, d)
  | fuel + 1, y, m, d =>
    if d ≤ daysInMonth y m then (y, m, d)
    else
      let p := nextMonth y m
      carryAux fuel p.1 p.2 (d - daysInMonth y m)

/-- Construction of a Date from civil components with out-of-range month
and day indices, as performed by new Date(y, m, d) and by the component
setters: the month index is folded into the year and the day of month is
normalized across month boundaries. -/
def mkDate (y mi d todMs : Int) : JSDate :=
  let ym := normMonth y mi
  let b := borrowAux (1 - d).toNat.succ ym.1 ym.2 d
  let c := carryAux b.2.2.toNat.succ b.1 b.2.1 b.2.2
  ⟨c.1, c.2.1, c.2.2, todMs⟩

/-- Model of date.setHours(0, 0, 0, 0). -/
def jsSetHoursZero (dt : JSDate) : JSDate := { dt with todMs := 0 }

/-- Model of date.setDate(n). -/
def jsSetDate (dt : JSDate) (n : Int) : JSDate := mkDate dt.year dt.month n dt.todMs

/-- Model of date.setMonth(mi). -/
def jsSetMonth (dt : JSDate) (mi : Int) : JSDate := mkDate dt.year mi dt.day dt.todMs

/-- Model of date.setMonth(mi, d). -/
def jsSetMonthDay (dt : JSDate) (mi d : Int) : JSDate := mkDate dt.year mi d dt.todMs

/-- Model of date.setFullYear(y). -/
def jsSetFullYear (dt : JSDate) (y : Int) : JSDate := mkDate y dt.month dt.day dt.todMs

/-- Model of the multi-argument constructor new Date(y, m, d, h): two-digit
years are interpreted as 1900-relative, every other component normalizes
as in mkDate. -/
def jsDateCtor (y mi d todMs : Int) : JSDate :=
  let y2 := if 0 ≤ y ∧ y ≤ 99 then y + 1900 else y
  mkDate y2 mi d todMs

/-- Day count from the epoch to January 1 of year y (proleptic Gregorian,
uniform timeline).  The offsets inside the floor divisions make the year
increment exactly 365 plus the leap correction of the year left behind. -/
def yearStartDay (y : Int) : Int :=
  365 * y + (y + 3) / 4 - (y + 99) / 100 + (y + 399) / 400

/-- Day of year at which a zero-based month starts. -/
def monthStartDoy (y : Int) (m : Nat) : Int :=
  (if m = 0 then 0
    else if m = 1 then 31
    else if m = 2 then 59
    else if m = 3 then 90
    else if m = 4 then 120
    else if m = 5 then 151
    else if m = 6 then 181
    else if m = 7 then 212
    else if m = 8 then 243
    else if m = 9 then 273
    else if m = 10 then 304
    else 334) +
    (if 2 ≤ m ∧ isLeap y then 1 else 0)

/-- Linear day index of a civil date. -/
def JSDate.dayNumber (dt : JSDate) : Int :=
  yearStartDay dt.year + monthStartDoy dt.year dt.month + dt.day - 1

/-- Model of Date.prototype.getTime on the uniform local timeline. -/
def JSDate.getTime (dt : JSDate) : Int :=
  dt.dayNumber * 86400000 + dt.todMs

/-- A date whose components are in range; every Date produced by the
JavaScript runtime observes these bounds through its component getters. -/
def JSDate.Normalized (dt : JSDate) : Prop :=
  dt.month ≤ 11 ∧ 1 ≤ dt.day ∧ dt.day ≤ daysInMonth dt.year dt.month ∧
    0 ≤ dt.todMs ∧ dt.todMs < 86400000

instance (dt : JSDate) : Decidable dt.Normalized := by
  unfold JSDate.Normalized
  infer_instance

/-- Strict calendar order on civil components; on normalized dates it
coincides with the chronological order of getTime. -/
def JSDate.lexLt (a b : JSDate) : Prop :=
  a.year < b.year ∨
    (a.year = b.year ∧
      (a.month < b.month ∨
        (a.month = b.month ∧
          (a.day < b.day ∨ (a.day = b.day ∧ a.todMs < b.todMs)))))

/-! ## Period resolver (admin-dashboard.service.ts:621) -/

/-- Half-open date range, start inclusive and stop exclusive. -/
structure DateRange where
  start : JSDate
  stop : JSDate
  deriving DecidableEq

/-- Pair of comparison ranges produced by the period resolver. -/
structure PeriodBounds where
  current : DateRange
  previous : DateRange
  deriving DecidableEq

/-- Embedding of getPeriodBounds.  The switch on the period tag is
rendered as an if chain; the captured now is the single wall-clock value
the source reads once at entry. -/
def getPeriodBounds (period : String) (now : JSDate) : PeriodBounds :=
  let endCurrent := now
  let startCurrent := jsSetHoursZero now
  if period = "today" then
    let previousStart := jsSetDate startCurrent (startCurrent.day - 1)
    let previousEnd := startCurrent
    ⟨⟨startCurrent, endCurrent⟩, ⟨previousStart, previousEnd⟩⟩
  else if period = "week" then
    let sc := jsSetDate startCurrent (startCurrent.day - 6)
    let previousEnd := sc
    let previousStart := jsSetDate sc (sc.day - 7)
    ⟨⟨sc, endCurrent⟩, ⟨previousStart, previousEnd⟩⟩
  else if period = "month" then
    let sc := jsSetDate startCurrent 1
    let previousEnd := sc
    let previousStart := jsSetMonth sc ((sc.month : Int) - 1)
    ⟨⟨sc, endCurrent⟩, ⟨previousStart, previousEnd⟩⟩
  else if period = "year" then
    let sc := jsSetMonthDay startCurrent 0 1
    let previousEnd := sc
    let previousStart := jsSetFullYear sc (sc.year - 1)
    ⟨⟨sc, endCurrent⟩, ⟨previousStart, previousEnd⟩⟩
  else
    ⟨⟨startCurrent, endCurrent⟩, ⟨startCurrent, startCurrent⟩⟩

/-! ## Decimal digit strings

The trend bucketizer derives string bucket keys from date components via
template strings and recovers components via String.prototype.split and
parseInt.  Digit rendering and parsing are modelled over character lists. -/

/-- Character for a decimal digit value. -/
def digitChar (n : Nat) : Char := Char.ofNat (48 + n)

/-- Fuelled most-significant-first decimal rendering; the fuel passed by
natToDigits always suffices since the value shrinks by a factor of ten per
step. -/
def natToDigitsAux : Nat → Nat → List Char
  | 0, n => [digitChar (n % 10)]
  | fuel + 1, n =>
    if n < 10 then [digitChar n]
    else natToDigitsAux fuel (n / 10) ++ [digitChar (n % 10)]

/-- Decimal digit string of a natural number, as produced by JavaScript
number-to-string conversion for integer values. -/
def natToDigits (n : Nat) : List Char := natToDigitsAux n n

/-- Model of String(n).padStart(2, "0"). -/
def pad2 (n : Nat) : List Char :=
  if n < 10 then '0' :: natToDigits n else natToDigits n

/-- Decimal rendering of an integer (template-string interpolation). -/
def intToChars (i : Int) : List Char :=
  if i < 0 then '-' :: natToDigits (-i).toNat else natToDigits i.toNat

/-- Test for an ASCII decimal digit. -/
def isDigitChar (c : Char) : Bool := 48 ≤ c.toNat && c.toNat ≤ 57

/-- Value of a digit string (most significant first). -/
def parseDigits (cs : List Char) : Nat :=
  cs.foldl (fun a c => a * 10 + (c.toNat - 48)) 0

/-- Model of parseInt on a string with no leading whitespace: an optional
sign followed by the longest digit prefix; none models NaN. -/
def parseIntChars (cs : List Char) : Option Int :=
  match cs with
  | [] => none
  | c :: rest =>
    if c = '-' then
      let ds := rest.takeWhile isDigitChar
      if ds.isEmpty then none else some (-(parseDigits ds : Int))
    else if c = '+' then
      let ds := rest.takeWhile isDigitChar
      if ds.isEmpty then none else some ((parseDigits ds : Int))
    else
      let ds := (c :: rest).takeWhile isDigitChar
      if ds.isEmpty then none else some ((parseDigits ds : Int))

/-- Model of String.prototype.split on the separator class consisting of
the hyphen, the space and the colon; adjacent separators produce empty
pieces exactly as in JavaScript. -/
def splitSeps : List Char → List (List Char)
  | [] => [[]]
  | c :: rest =>
    if c = '-' ∨ c = ' ' ∨ c = ':' then [] :: splitSeps rest
    else
      match splitSeps rest with
      | [] => [[c]]
      | p :: ps => (c :: p) :: ps

/-- Hour-of-day component of a date (Date.prototype.getHours). -/
def JSDate.hours (dt : JSDate) : Int := dt.todMs / 3600000

/-! ## Trend bucket keys (admin-dashboard.service.ts:911 and 929) -/

/-- Embedding of getDateKey: the bucket key string of a date for a period.
The year is rendered as by template interpolation, month and day are
one-based and zero-padded to two characters, and the today granularity
appends the zero-padded hour with a fixed ":00" suffix. -/
def getDateKey (date : JSDate) (period : String) : String :=
  let y := intToChars date.year
  let mo := pad2 (date.month + 1)
  let da := pad2 date.day.toNat
  if period = "today" then
    ⟨y ++ '-' :: mo ++ '-' :: da ++ ' ' :: pad2 date.hours.toNat ++ [':', '0', '0']⟩
  else if period = "week" ∨ period = "month" then
    ⟨y ++ '-' :: mo ++ '-' :: da⟩
  else if period = "year" then
    ⟨y ++ '-' :: mo⟩
  else
    ⟨y ++ '-' :: mo ++ '-' :: da⟩

/-- Embedding of parseDateKey: split the key on the separator class,
parseInt the parts and rebuild a Date through the multi-argument
constructor.  A NaN component would make the JavaScript Date invalid;
that case is unreachable for keys produced by getDateKey on real dates
and is conventionally represented here by the component value 0. -/
def parseDateKey (key : String) (period : String) : JSDate :=
  let parts := splitSeps key.data
  let year := (parseIntChars (parts.getD 0 [])).getD 0
  let month := (parseIntChars (parts.getD 1 [])).getD 0 - 1
  if period = "today" then
    let day := (parseIntChars (parts.getD 2 [])).getD 0
    let hour := (parseIntChars (parts.getD 3 [])).getD 0
    jsDateCtor year month day (hour * 3600000)
  else if period = "week" ∨ period = "month" then
    jsDateCtor year month ((parseIntChars (parts.getD 2 [])).getD 0) 0
  else if period = "year" then
    jsDateCtor year month 1 0
  else
    let c2 := parts.getD 2 []
    let c2d := if c2.isEmpty then ['1'] else c2
    jsDateCtor year month ((parseIntChars c2d).getD 0) 0

/-- Calendar truncation of a date to its bucket granularity: the instant
a bucket key of the given period represents. -/
def truncDate (period : String) (dt : JSDate) : JSDate :=
  if period = "today" then ⟨dt.year, dt.month, dt.day, dt.hours * 3600000⟩
  else if period = "year" then ⟨dt.year, dt.month, 1, 0⟩
  else ⟨dt.year, dt.month, dt.day, 0⟩

/-! ## Revenue trend (admin-dashboard.service.ts:790) -/

/-- A completed order record as read by getRevenueTrend: the creation
timestamp (absent when the stored field is missing, in which case the
record is skipped), the order amount and the recorded cost. -/
structure TrendRec where
  createdAt : Option JSDate
  totalAmount : Option ℚ
  costPrice : Option ℚ

/-- Accumulated totals of one bucket. -/
structure TrendBucket where
  revenue : ℚ
  orders : Nat
  profit : ℚ

/-- A point of the returned trend series. -/
structure TrendPoint where
  date : JSDate
  revenue : ℚ
  orders : Nat
  profit : ℚ

/-- Map set with get-or-default, preserving insertion order as a
JavaScript Map does. -/
def groupedInsert (g : List (String × TrendBucket)) (k : String) (amount cost : ℚ) :
    List (String × TrendBucket) :=
  match g with
  | [] => [(k, ⟨amount, 1, amount - cost⟩)]
  | (k2, b) :: rest =>
    if k2 = k then
      (k2, ⟨b.revenue + amount, b.orders + 1, b.profit + (amount - cost)⟩) :: rest
    else (k2, b) :: groupedInsert rest k amount cost

/-- One iteration of the grouping loop of getRevenueTrend: skip records
with no timestamp; read the amount with a falsy default of 0; read the
cost, defaulting to 0.7 times the amount when the stored cost is missing
or 0 (both are falsy); accumulate revenue, order count and profit. -/
def trendStep (period : String) (g : List (String × TrendBucket)) (r : TrendRec) :
    List (String × TrendBucket) :=
  match r.createdAt with
  | none => g
  | some date =>
    let key := getDateKey date period
    let amount := r.totalAmount.getD 0
    let cost :=
      match r.costPrice with
      | some c => if c = 0 then amount * (7 / 10) else c
      | none => amount * (7 / 10)
    groupedInsert g key amount cost

/-- Embedding of getRevenueTrend on the records returned by the completed
orders range query: group into buckets, convert each bucket entry to a
point dated at its parsed key, and sort ascending by getTime. -/
def getRevenueTrend (period : String) (docs : List TrendRec) : List TrendPoint :=
  let grouped := docs.foldl (trendStep period) []
  let pts := grouped.map
    (fun kv => TrendPoint.mk (parseDateKey kv.1 period) kv.2.revenue kv.2.orders kv.2.profit)
  List.insertionSort (fun a b => a.date.getTime ≤ b.date.getTime) pts

/-- Profit contribution of one record under the actual cost policy of the
source: amount minus cost, where cost is the recorded cost when it is
present and nonzero, and 0.7 times the amount otherwise. -/
def trendContribution (r : TrendRec) : ℚ :=
  match r.createdAt with
  | none => 0
  | some _ =>
    let amount := r.totalAmount.getD 0
    let cost :=
      match r.costPrice with
      | some c => if c = 0 then amount * (7 / 10) else c
      | none => amount * (7 / 10)
    amount - cost

/-! ## Geographic breakdown (admin-dashboard.service.ts:952) -/

/-- Lowercase conversion over character data (String.prototype.toLowerCase
for the ASCII payloads the status field holds). -/
def jsToLower (s : String) : String :=
  ⟨s.data.map (fun c => if 'A' ≤ c ∧ c ≤ 'Z' then Char.ofNat (c.toNat + 32) else c)⟩

/-- JavaScript truthiness filter for an optional string: null, undefined
and the empty string are falsy. -/
def jsTruthyStr : Option String → Option String
  | none => none
  | some s => if s = "" then none else some s

/-- Region classification labels. -/
inductive Region where
  | LATAM
  | EU
  | APAC
  | NA
  | MENA
  | OTHER
  deriving DecidableEq

/-- A record of the orders or quotes collection, restricted to the fields
the geographic aggregation reads.  The range filter on createdAt runs in
the store query and is not re-examined here. -/
structure GeoRec where
  countryCode : Option String
  country : Option String
  shippingAddressCountryCode : Option String
  shippingAddressCountry : Option String
  billingAddressCountryCode : Option String
  billingAddressCountry : Option String
  customerCountry : Option String
  status : Option String
  total : Option ℚ
  totalAmount : Option ℚ

/-- Embedding of convertCountryNameToCode: the fixed name-to-code table,
returning the input unchanged when the name is not recognized. -/
def convertCountryNameToCode (nm : String) : String :=
  match nm with
  | "United States" => "US"
  | "United States of America" => "US"
  | "USA" => "US"
  | "United Kingdom" => "GB"
  | "UK" => "GB"
  | "Brazil" => "BR"
  | "Brasil" => "BR"
  | "Mexico" => "MX"
  | "México" => "MX"
  | "Germany" => "DE"
  | "Deutschland" => "DE"
  | "France" => "FR"
  | "Spain" => "ES"
  | "España" => "ES"
  | "Italy" => "IT"
  | "Italia" => "IT"
  | "Canada" => "CA"
  | "Canadá" => "CA"
  | "Australia" => "AU"
  | "Japan" => "JP"
  | "China" => "CN"
  | "India" => "IN"
  | "Singapore" => "SG"
  | "Netherlands" => "NL"
  | "Argentina" => "AR"
  | "Chile" => "CL"
  | "Colombia" => "CO"
  | "Peru" => "PE"
  | "Perú" => "PE"
  | _ => nm

/-- Embedding of getCountryName: code-to-display-name table, unknown codes
display as the code itself. -/
def getCountryName (code : String) : String :=
  match code with
  | "BR" => "Brazil"
  | "MX" => "Mexico"
  | "AR" => "Argentina"
  | "CL" => "Chile"
  | "CO" => "Colombia"
  | "PE" => "Peru"
  | "VE" => "Venezuela"
  | "EC" => "Ecuador"
  | "GB" => "United Kingdom"
  | "DE" => "Germany"
  | "FR" => "France"
  | "ES" => "Spain"
  | "IT" => "Italy"
  | "NL" => "Netherlands"
  | "SE" => "Sweden"
  | "NO" => "Norway"
  | "PL" => "Poland"
  | "CH" => "Switzerland"
  | "CN" => "China"
  | "JP" => "Japan"
  | "KR" => "South Korea"
  | "IN" => "India"
  | "AU" => "Australia"
  | "SG" => "Singapore"
  | "TH" => "Thailand"
  | "VN" => "Vietnam"
  | "ID" => "Indonesia"
  | "MY" => "Malaysia"
  | "PH" => "Philippines"
  | "US" => "United States"
  | "CA" => "Canada"
  | "AE" => "UAE"
  | "SA" => "Saudi Arabia"
  | "IL" => "Israel"
  | "TR" => "Turkey"
  | _ => code

/-- Embedding of getRegion: membership of the code in the five fixed
region sets, in the order tested by the source. -/
def getRegion (code : String) : Region :=
  if code ∈ ["BR", "MX", "AR", "CL", "CO", "PE", "VE", "EC", "UY", "PY", "BO"] then .LATAM
  else if code ∈ ["GB", "DE", "FR", "ES", "IT", "NL", "SE", "NO", "PL", "CH", "AT", "BE",
    "DK", "FI", "IE", "PT"] then .EU
  else if code ∈ ["CN", "JP", "KR", "IN", "AU", "SG", "TH", "VN", "ID", "MY", "PH", "NZ",
    "HK", "TW"] then .APAC
  else if code ∈ ["US", "CA"] then .NA
  else if code ∈ ["AE", "SA", "IL", "TR", "EG", "QA", "KW", "OM", "BH", "JO", "LB"] then .MENA
  else .OTHER

/-- Embedding of extractCountryCode: probe the country fields in priority
order with JavaScript truthiness, convert a value longer than two
characters through the name table, and return the uppercased result, or
the empty string (a skip marker for the caller) when nothing was found. -/
def extractCountryCode (r : GeoRec) : String :=
  let c := (jsTruthyStr r.countryCode).or
    ((jsTruthyStr r.country).or
      ((jsTruthyStr r.shippingAddressCountryCode).or
        ((jsTruthyStr r.shippingAddressCountry).or
          ((jsTruthyStr r.billingAddressCountryCode).or
            ((jsTruthyStr r.billingAddressCountry).or
              (jsTruthyStr r.customerCountry))))))
  match c with
  | none => ""
  | some s =>
    let s2 := if s.length > 2 then convertCountryNameToCode s else s
    if s2 = "" then "" else jsToUpper s2

/-- One row of the geographic aggregation result. -/
structure GeoPoint where
  country : String
  countryCode : String
  region : Region
  quotes : Nat
  conversions : Nat
  revenue : ℚ

/-- Insert a fresh entry for a country code unless one exists (the has and
set calls on the aggregation map), preserving insertion order. -/
def geoEnsure (m : List (String × GeoPoint)) (code : String) (p : GeoPoint) :
    List (String × GeoPoint) :=
  if m.any (fun kv => kv.1 = code) then m else m ++ [(code, p)]

/-- Apply an update to the entry of a country code. -/
def geoModify (m : List (String × GeoPoint)) (code : String) (f : GeoPoint → GeoPoint) :
    List (String × GeoPoint) :=
  m.map (fun kv => if kv.1 = code then (kv.1, f kv.2) else kv)

/-- Amount added to revenue for a converted order: the JavaScript
expression total or totalAmount or 0 under falsy fallback. -/
def jsOrAmount (r : GeoRec) : ℚ :=
  match r.total with
  | some t =>
    if t = 0 then
      match r.totalAmount with
      | some t2 => t2
      | none => 0
    else t
  | none =>
    match r.totalAmount with
    | some t2 => t2
    | none => 0

/-- Fulfilled-status test of the conversion counter. -/
def fulfilledStatus (status : String) : Bool :=
  status = "completed" || status = "delivered" || status = "shipped"

/-- Processing of one quotes-collection record: skip when no country was
found, otherwise ensure the country entry exists and increment quotes. -/
def processQuote (m : List (String × GeoPoint)) (r : GeoRec) : List (String × GeoPoint) :=
  let code := extractCountryCode r
  if code = "" then m
  else
    let m2 := geoEnsure m code ⟨getCountryName code, code, getRegion code, 0, 0, 0⟩
    geoModify m2 code (fun p => { p with quotes := p.quotes + 1 })

/-- Processing of one orders-collection record: skip when no country was
found; otherwise ensure the entry, count the order as a quote only when
the quotes snapshot was entirely empty, and count a conversion with its
revenue when the lowercased status (defaulting to pending) is in the
fulfilled set. -/
def processOrder (quotesEmpty : Bool) (m : List (String × GeoPoint)) (r : GeoRec) :
    List (String × GeoPoint) :=
  let code := extractCountryCode r
  if code = "" then m
  else
    let status := jsToLower ((jsTruthyStr r.status).getD "pending")
    let m2 := geoEnsure m code ⟨getCountryName code, code, getRegion code, 0, 0, 0⟩
    let m3 := if quotesEmpty then geoModify m2 code (fun p => { p with quotes := p.quotes + 1 })
      else m2
    if fulfilledStatus status then
      geoModify m3 code (fun p =>
        { p with conversions := p.conversions + 1, revenue := p.revenue + jsOrAmount r })
    else m3

/-- Embedding of getGeographicData on the records the two range queries
return (a missing quotes collection surfaces as the empty list through the
catch handler): process quotes, then orders, keep countries with any
activity, and sort descending by quote volume. -/
def getGeographicData (orders quotes : List GeoRec) : List GeoPoint :=
  let m1 := quotes.foldl processQuote []
  let m2 := orders.foldl (processOrder quotes.isEmpty) m1
  List.insertionSort (fun a b => b.quotes ≤ a.quotes)
    ((m2.map Prod.snd).filter (fun p => p.quotes > 0 ∨ p.conversions > 0))

/-! ## Activity feed merger (admin-dashboard.service.ts:376 and 541) -/

/-- Kind of a recent-activity item. -/
inductive AdminActivityType where
  | order
  | product
  | gallery
  | user
  deriving DecidableEq

/-- A recent-activity item, restricted to the fields the merger orders
and caps by. -/
structure AdminActivityItem where
  type : AdminActivityType
  timestamp : Int
  deriving DecidableEq

/-- Embedding of safeQuery: the primary ordered query, or the fallback
query ordered by the fallback timestamp field when the primary fails. -/
def safeQuery (primaryFails : Bool) (primary fallback : List AdminActivityItem) :
    List AdminActivityItem :=
  if primaryFails then fallback else primary

/-- Embedding of getRecentActivity: fetch the four kinds independently and
resiliently, concatenate, sort descending by timestamp and truncate to the
caller-requested maximum. -/
def getRecentActivity (maxItems : Nat) (bo bp bg bu : Bool)
    (lo1 lo2 lp1 lp2 lg1 lg2 lu1 lu2 : List AdminActivityItem) : List AdminActivityItem :=
  let orderEvents := safeQuery bo lo1 lo2
  let productEvents := safeQuery bp lp1 lp2
  let galleryEvents := safeQuery bg lg1 lg2
  let userEvents := safeQuery bu lu1 lu2
  (List.insertionSort (fun a b => b.timestamp ≤ a.timestamp)
    (orderEvents ++ productEvents ++ galleryEvents ++ userEvents)).take maxItems

end LuxMining

-- ===== THEOREMS =====

namespace LuxMining

/-! ## Helper lemmas for the aggregation paths -/

theorem fallback_fold_eq (now rStart rEnd : Int) (docs : List OrderRec)
    (h : ∀ r ∈ docs, r.WellFormed) (acc : Nat × ℚ) :
    docs.foldl (fallbackStep now rStart rEnd) acc =
      (acc.1 + (docs.filter (serverMatches rStart rEnd)).length,
        acc.2 + serverSum (docs.filter (serverMatches rStart rEnd))) := by
  induction docs generalizing acc with
  | nil => simp [serverSum]
  | cons r rest ih =>
    obtain ⟨⟨ms, hms⟩, htotal⟩ := h r (by simp)
    have hrest : ∀ x ∈ rest, x.WellFormed := fun x hx => h x (by simp [hx])
    by_cases hin : rStart ≤ ms ∧ ms < rEnd
    · have hm : serverMatches rStart rEnd r = true := by
        simp [serverMatches, hms, hin]
      have hstep : fallbackStep now rStart rEnd acc r =
          (acc.1 + 1, acc.2 + serverContribution r) := by
        rcases htotal with h0 | ⟨q, hq⟩
        · simp [fallbackStep, extractTimestamp, hms, hin, h0, coerceTotal, serverContribution]
        · simp [fallbackStep, extractTimestamp, hms, hin, hq, coerceTotal, serverContribution]
      rw [List.foldl_cons, hstep, ih hrest]
      simp only [List.filter_cons, hm, if_true, List.length_cons, serverSum,
        List.map_cons, List.sum_cons]
      refine Prod.ext ?_ ?_
      · simp; omega
      · simp; ring
    · have hm : serverMatches rStart rEnd r = false := by
        simp only [serverMatches, hms]
        exact decide_eq_false hin
      have hstep : fallbackStep now rStart rEnd acc r = acc := by
        simp [fallbackStep, extractTimestamp, hms, hin]
      rw [List.foldl_cons, hstep, ih hrest]
      simp only [List.filter_cons, hm, Bool.false_eq_true, if_false]

theorem countInRange_fold_aux (now rStart rEnd : Int) (docs : List CountRec)
    (h : ∀ r ∈ docs, r.WellFormed) (acc : Nat) :
    docs.foldl
        (fun c r =>
          if !r.passesFilter then c
          else
            let ts := extractTimestamp now (r.tsField.or r.fallbackField)
            if rStart ≤ ts ∧ ts < rEnd then c + 1 else c) acc =
      acc + (countInRangeServer rStart rEnd docs) := by
  induction docs generalizing acc with
  | nil => simp [countInRangeServer]
  | cons r rest ih =>
    obtain ⟨ms, hms⟩ := h r (by simp)
    have hrest : ∀ x ∈ rest, x.WellFormed := fun x hx => h x (by simp [hx])
    rw [List.foldl_cons]
    by_cases hp : r.passesFilter = true
    · by_cases hin : rStart ≤ ms ∧ ms < rEnd
      · have : (if !r.passesFilter then acc
            else
              let ts := extractTimestamp now (r.tsField.or r.fallbackField)
              if rStart ≤ ts ∧ ts < rEnd then acc + 1 else acc) = acc + 1 := by
          simp [hp, hms, extractTimestamp, hin]
        rw [this, ih hrest]
        simp only [countInRangeServer, List.filter_cons, hp, hms, Bool.true_and]
        rw [decide_eq_true hin]
        simp
        omega
      · have : (if !r.passesFilter then acc
            else
              let ts := extractTimestamp now (r.tsField.or r.fallbackField)
              if rStart ≤ ts ∧ ts < rEnd then acc + 1 else acc) = acc := by
          simp [hp, hms, extractTimestamp, hin]
        rw [this, ih hrest]
        simp only [countInRangeServer, List.filter_cons, hp, hms, Bool.true_and]
        rw [decide_eq_false hin]
        simp
    · have : (if !r.passesFilter then acc
          else
            let ts := extractTimestamp now (r.tsField.or r.fallbackField)
            if rStart ≤ ts ∧ ts < rEnd then acc + 1 else acc) = acc := by
        simp [hp]
      rw [this, ih hrest]
      simp only [countInRangeServer, List.filter_cons]
      have hb : r.passesFilter = false := by simpa using hp
      rw [hb]
      simp

theorem countInRange_fold_eq (now rStart rEnd : Int) (docs : List CountRec)
    (h : ∀ r ∈ docs, r.WellFormed) :
    countInRangeFallback now rStart rEnd docs = countInRangeServer rStart rEnd docs := by
  have := countInRange_fold_aux now rStart rEnd docs h 0
  simpa [countInRangeFallback] using this

/-! ## Claim C1: currency resolution failure policy -/

/-- C1 counterexample: the claim states that after a failed settings fetch
the cache remains empty so that a subsequent call re-attempts the fetch,
and that only a successful resolution is cached.  Starting from the empty
cache, a failed fetch returns USD but also stores USD into the cache, and
a subsequent call (even one whose fetch would succeed with EUR) serves the
cached USD without performing any fetch. -/
theorem currency_failure_cache_counterexample :
    (resolveCurrencyCode ⟨none⟩ (.error ())).2.1.cachedCurrencyCode ≠ none ∧
      (resolveCurrencyCode ⟨none⟩ (.error ())).2.1.cachedCurrencyCode = some "USD" ∧
      (resolveCurrencyCode
        (resolveCurrencyCode ⟨none⟩ (.error ())).2.1 (.ok (some "eur"))).1 = "USD" ∧
      (resolveCurrencyCode
        (resolveCurrencyCode ⟨none⟩ (.error ())).2.1 (.ok (some "eur"))).2.2 = false := by
  refine ⟨?_, rfl, rfl, rfl⟩
  simp [resolveCurrencyCode, resolverOutcome]

/-- C1 amended: if the underlying settings fetch fails, every waiting
caller of the currency resolver receives the default USD and no exception
escapes; the default USD is itself cached for the remainder of the
process, so a subsequent call serves the cache and does not re-attempt the
underlying fetch. -/
theorem currency_failure_policy (n : Nat) (st : CurrencyCache)
    (hempty : st.cachedCurrencyCode = none) :
    (∀ v ∈ currencyWaiters n (.error ()), v = "USD") ∧
      resolveCurrencyCode st (.error ()) = ("USD", ⟨some "USD"⟩, true) ∧
      (∀ fetch2, resolveCurrencyCode ⟨some "USD"⟩ fetch2 = ("USD", ⟨some "USD"⟩, false)) := by
  refine ⟨?_, ?_, fun fetch2 => rfl⟩
  · intro v hv
    simp [currencyWaiters, resolverOutcome] at hv
    exact hv.2
  · cases st with
    | mk c => cases hempty; rfl

/-- C1 amended witness at concrete inputs. -/
theorem currency_failure_policy_witness :
    (∀ v ∈ currencyWaiters 3 (.error ()), v = "USD") ∧
      resolveCurrencyCode ⟨none⟩ (.error ()) = ("USD", ⟨some "USD"⟩, true) ∧
      (∀ fetch2, resolveCurrencyCode ⟨some "USD"⟩ fetch2 = ("USD", ⟨some "USD"⟩, false)) :=
  currency_failure_policy 3 ⟨none⟩ rfl

/-! ## Claim C2: calculateChange edge-case arithmetic -/

/-- C2: calculateChange returns 0 when both inputs are 0, null when the
previous value is 0 and the current is nonzero, and otherwise the
percentage change rounded to one decimal place (always finite over the
rationals); in particular the four example values of the specification
hold. -/
theorem calculateChange_spec :
    calculateChange 0 0 = some 0 ∧
      (∀ c : ℚ, c ≠ 0 → calculateChange c 0 = none) ∧
      (∀ c p : ℚ, p ≠ 0 →
        calculateChange c p = some (round1 ((c - p) / p * 100))) ∧
      calculateChange 0 0 = some 0 ∧
      calculateChange 5 0 = none ∧
      calculateChange 150 100 = some 50 ∧
      calculateChange 50 100 = some (-50) := by
  refine ⟨rfl, ?_, ?_, rfl, by norm_num [calculateChange], ?_, ?_⟩
  · intro c hc
    simp [calculateChange, hc]
  · intro c p hp
    simp [calculateChange, hp]
  · norm_num [calculateChange, round1]
  · norm_num [calculateChange, round1]
    rw [show ((-500 : ℚ)) = ((-500 : ℤ) : ℚ) by norm_num, round_intCast]
    norm_num

/-- C2 witness at concrete inputs for the hypothesis-bearing components. -/
theorem calculateChange_spec_witness :
    calculateChange 7 0 = none ∧
      calculateChange 7 4 = some (round1 ((7 - 4) / 4 * 100)) :=
  ⟨calculateChange_spec.2.1 7 (by norm_num),
    calculateChange_spec.2.2.1 7 4 (by norm_num)⟩

/-! ## Claim C3: path invariance of the resilient aggregator -/

/-- C3 counterexample: a single order record whose createdAt field is
missing and whose total is the number 100, aggregated over the range
0 to 10 with the wall clock at 5, is counted with revenue 100 by the
fallback scan (the missing timestamp is dated now, inside the range) but
matches nothing on the server aggregate path, so the two paths disagree
and the claim as stated is false. -/
theorem aggregateOrders_path_counterexample :
    aggregateOrdersFallback 5 0 10 [⟨none, some (.num 100)⟩] ≠
        aggregateOrdersServer 0 10 [⟨none, some (.num 100)⟩] ∧
      (aggregateOrdersFallback 5 0 10 [⟨none, some (.num 100)⟩]).count = 1 ∧
      (aggregateOrdersServer 0 10 [⟨none, some (.num 100)⟩]).count = 0 := by
  have h1 : (aggregateOrdersFallback 5 0 10 [⟨none, some (.num 100)⟩]).count = 1 := by
    norm_num [aggregateOrdersFallback, fallbackStep, extractTimestamp, coerceTotal]
  have h2 : (aggregateOrdersServer 0 10 [⟨none, some (.num 100)⟩]).count = 0 := by
    norm_num [aggregateOrdersServer, serverMatches]
  refine ⟨fun hcontra => ?_, h1, h2⟩
  rw [hcontra] at h1
  rw [h1] at h2
  exact absurd h2 one_ne_zero

/-- C3 amended: for records whose timestamp field holds a native timestamp
and whose amount field, when present, holds a native number — the shapes
the application itself writes — the fallback scan path and the server-side
aggregate path produce identical results, both for the count-and-sum order
aggregation and for the filtered range count. -/
theorem aggregate_path_invariance (now rStart rEnd : Int)
    (odocs : List OrderRec) (cdocs : List CountRec)
    (ho : ∀ r ∈ odocs, r.WellFormed) (hc : ∀ r ∈ cdocs, r.WellFormed) :
    aggregateOrdersFallback now rStart rEnd odocs = aggregateOrdersServer rStart rEnd odocs ∧
      countInRangeFallback now rStart rEnd cdocs = countInRangeServer rStart rEnd cdocs := by
  refine ⟨?_, countInRange_fold_eq now rStart rEnd cdocs hc⟩
  unfold aggregateOrdersFallback aggregateOrdersServer
  rw [fallback_fold_eq now rStart rEnd odocs ho (0, 0)]
  simp [serverSum]

/-- C3 amended witness at concrete well-formed inputs. -/
theorem aggregate_path_invariance_witness :
    aggregateOrdersFallback 0 0 10 [⟨some (.timestamp 3), some (.num 7)⟩] =
        aggregateOrdersServer 0 10 [⟨some (.timestamp 3), some (.num 7)⟩] ∧
      countInRangeFallback 0 0 10 [⟨some (.timestamp 3), none, true⟩] =
        countInRangeServer 0 10 [⟨some (.timestamp 3), none, true⟩] :=
  aggregate_path_invariance 0 0 10 _ _
    (by
      intro r hr
      simp only [List.mem_singleton] at hr
      subst hr
      exact ⟨⟨3, rfl⟩, .inr ⟨7, rfl⟩⟩)
    (by
      intro r hr
      simp only [List.mem_singleton] at hr
      subst hr
      exact ⟨3, rfl⟩)

/-! ## Claim C10: totality and now-defaulting of extractTimestamp -/

/-- C10: extractTimestamp is a total function (it is defined by exhaustive
cases over every value shape, so every input yields an instant without
throwing); a missing value, an unparseable string and an unrecognized
shape are all dated at the current wall clock, and consequently in the
fallback scan a record lacking its timestamp field is counted exactly as
if it had been created at the moment of the query, falling inside any
range containing that moment. -/
theorem extractTimestamp_defaults (now : Int) :
    extractTimestamp now none = now ∧
      extractTimestamp now (some (.str none)) = now ∧
      extractTimestamp now (some .other) = now ∧
      (∀ (r : OrderRec), r.createdAt = none →
        ∀ rStart rEnd : Int, rStart ≤ now → now < rEnd →
          (aggregateOrdersFallback now rStart rEnd [r]).count = 1) := by
  refine ⟨rfl, rfl, rfl, ?_⟩
  intro r hr rStart rEnd h1 h2
  simp [aggregateOrdersFallback, fallbackStep, hr, extractTimestamp, h1, h2]

/-- C10 witness at concrete inputs. -/
theorem extractTimestamp_defaults_witness :
    extractTimestamp 5 none = 5 ∧
      (aggregateOrdersFallback 5 0 10 [⟨none, some (.num 100)⟩]).count = 1 :=
  ⟨(extractTimestamp_defaults 5).1,
    (extractTimestamp_defaults 5).2.2.2 ⟨none, some (.num 100)⟩ rfl 0 10
      (by norm_num) (by norm_num)⟩

/-! ## Calendar arithmetic lemmas -/

theorem daysInMonth_bounds (y : Int) (m : Nat) :
    28 ≤ daysInMonth y m ∧ daysInMonth y m ≤ 31 := by
  unfold daysInMonth
  split_ifs <;> omega

theorem yearStartDay_succ (y : Int) :
    yearStartDay (y + 1) = yearStartDay y + 365 + (if isLeap y then 1 else 0) := by
  by_cases h : isLeap y
  · rw [if_pos h]
    unfold isLeap at h
    simp only [Bool.and_eq_true, Bool.or_eq_true, bne_iff_ne, ne_eq, decide_eq_true_eq] at h
    unfold yearStartDay
    omega
  · rw [if_neg h]
    unfold isLeap at h
    simp only [Bool.and_eq_true, Bool.or_eq_true, bne_iff_ne, ne_eq, decide_eq_true_eq,
      not_and, not_or, not_not] at h
    unfold yearStartDay
    omega

theorem yearStartDay_add (y : Int) (n : Nat) :
    yearStartDay y + 365 * n ≤ yearStartDay (y + n) := by
  induction n with
  | zero => simp
  | succ k ih =>
    have h := yearStartDay_succ (y + k)
    push_cast
    push_cast at ih
    rw [show y + ((k : Int) + 1) = y + (k : Int) + 1 by ring]
    split_ifs at h <;> omega

theorem yearStartDay_mono {y y2 : Int} (h : y ≤ y2) : yearStartDay y ≤ yearStartDay y2 := by
  have hn : y2 = y + ((y2 - y).toNat : Int) := by omega
  rw [hn]
  have hadd := yearStartDay_add y (y2 - y).toNat
  have h365 : (0 : Int) ≤ 365 * ((y2 - y).toNat : Int) := by positivity
  omega

set_option maxHeartbeats 1000000

theorem monthStartDoy_nonneg (y : Int) (m : Nat) : 0 ≤ monthStartDoy y m := by
  unfold monthStartDoy
  split_ifs <;> omega

theorem monthStartDoy_step (y : Int) {m : Nat} (h : m ≤ 10) :
    monthStartDoy y (m + 1) = monthStartDoy y m + daysInMonth y m := by
  interval_cases m <;> simp [monthStartDoy, daysInMonth] <;> split_ifs <;> omega

theorem monthStartDoy_mono (y : Int) {m m2 : Nat} (h : m ≤ m2) (h2 : m2 ≤ 11) :
    monthStartDoy y m ≤ monthStartDoy y m2 := by
  induction m2 with
  | zero =>
    have : m = 0 := by omega
    subst this
    exact le_refl _
  | succ k ih =>
    rcases Nat.lt_or_ge m (k + 1) with hlt | hge
    · have hstep := monthStartDoy_step y (show k ≤ 10 by omega)
      have hpos := (daysInMonth_bounds y k).1
      have hk := ih (by omega) (by omega)
      omega
    · have : m = k + 1 := by omega
      subst this
      exact le_refl _

theorem monthStartDoy_gap (y : Int) {m m2 : Nat} (h : m < m2) (h2 : m2 ≤ 11) :
    monthStartDoy y m + daysInMonth y m ≤ monthStartDoy y m2 := by
  have hstep := monthStartDoy_step y (show m ≤ 10 by omega)
  have hmono := monthStartDoy_mono y (show m + 1 ≤ m2 by omega) h2
  omega

theorem monthStartDoy_daysInMonth_le (y : Int) {m : Nat} (h : m ≤ 11) :
    monthStartDoy y m + daysInMonth y m ≤ 365 + (if isLeap y then 1 else 0) := by
  rcases Nat.lt_or_ge m 11 with hlt | hge
  · have hstep := monthStartDoy_step y (show m ≤ 10 by omega)
    have hmono := monthStartDoy_mono y (show m + 1 ≤ 11 by omega) (le_refl 11)
    have h11 : monthStartDoy y 11 = 334 + (if isLeap y then 1 else 0) := by
      simp [monthStartDoy]
    split_ifs at * <;> omega
  · have : m = 11 := by omega
    subst this
    simp [monthStartDoy, daysInMonth]
    split_ifs <;> omega

theorem dayNumber_lt {a b : JSDate} (ha : a.Normalized) (hb : b.Normalized)
    (h : a.year < b.year ∨
      (a.year = b.year ∧
        (a.month < b.month ∨ (a.month = b.month ∧ a.day < b.day)))) :
    a.dayNumber < b.dayNumber := by
  obtain ⟨ham, had1, had2, _, _⟩ := ha
  obtain ⟨hbm, hbd1, hbd2, _, _⟩ := hb
  unfold JSDate.dayNumber
  rcases h with hy | ⟨hy, h⟩
  · have hsucc := yearStartDay_succ a.year
    have hle := monthStartDoy_daysInMonth_le a.year ham
    have hmono := yearStartDay_mono (show a.year + 1 ≤ b.year by omega)
    have hb0 : 0 ≤ monthStartDoy b.year b.month := monthStartDoy_nonneg _ _
    split_ifs at hsucc hle <;> omega
  · rcases h with hm | ⟨hm, hd⟩
    · have hgap := monthStartDoy_gap a.year hm hbm
      rw [← hy] at *
      omega
    · rw [← hy, ← hm] at *
      omega

theorem getTime_lt_of_lexLt {a b : JSDate} (ha : a.Normalized) (hb : b.Normalized)
    (h : a.lexLt b) : a.getTime < b.getTime := by
  have hta := ha.2.2.2
  have htb := hb.2.2.2
  unfold JSDate.lexLt at h
  unfold JSDate.getTime
  rcases h with hy | ⟨hy, hm | ⟨hm, hd | ⟨hd, ht⟩⟩⟩
  · have := dayNumber_lt ha hb (.inl hy)
    omega
  · have := dayNumber_lt ha hb (.inr ⟨hy, .inl hm⟩)
    omega
  · have := dayNumber_lt ha hb (.inr ⟨hy, .inr ⟨hm, hd⟩⟩)
    omega
  · have heq : a.dayNumber = b.dayNumber := by
      unfold JSDate.dayNumber
      rw [hy, hm, hd]
    omega

theorem getTime_le_comp {a b : JSDate} (ha : a.Normalized) (hb : b.Normalized)
    (h : a.year < b.year ∨
      (a.year = b.year ∧
        (a.month < b.month ∨
          (a.month = b.month ∧
            (a.day < b.day ∨ (a.day = b.day ∧ a.todMs ≤ b.todMs)))))) :
    a.getTime ≤ b.getTime := by
  rcases h with hy | ⟨hy, hm | ⟨hm, hd | ⟨hd, ht⟩⟩⟩
  · exact (getTime_lt_of_lexLt ha hb (.inl hy)).le
  · exact (getTime_lt_of_lexLt ha hb (.inr ⟨hy, .inl hm⟩)).le
  · exact (getTime_lt_of_lexLt ha hb (.inr ⟨hy, .inr ⟨hm, .inl hd⟩⟩)).le
  · have heq : a.dayNumber = b.dayNumber := by
      unfold JSDate.dayNumber
      rw [hy, hm, hd]
    unfold JSDate.getTime
    omega

/-! ## Normalization lemmas for mkDate and the setters -/

theorem normMonth_of_nat (y : Int) (m : Nat) (hm : m ≤ 11) : normMonth y m = (y, m) := by
  unfold normMonth
  refine Prod.ext ?_ ?_
  · show y + (m : Int) / 12 = y
    omega
  · show ((m : Int) % 12).toNat = m
    omega

theorem mkDate_valid {y : Int} {m : Nat} {d : Int} (todMs : Int) (hm : m ≤ 11)
    (h1 : 1 ≤ d) (h2 : d ≤ daysInMonth y m) :
    mkDate y m d todMs = ⟨y, m, d, todMs⟩ := by
  unfold mkDate
  rw [normMonth_of_nat y m hm]
  simp only [borrowAux, if_pos h1, carryAux, if_pos h2]

theorem prevMonth_le (y : Int) (m : Nat) (hm : m ≤ 11) : (prevMonth y m).2 ≤ 11 := by
  unfold prevMonth
  split_ifs <;> omega

theorem nextMonth_prevMonth (y : Int) (m : Nat) (hm : m ≤ 11) :
    nextMonth (prevMonth y m).1 (prevMonth y m).2 = (y, m) := by
  by_cases h : m = 0
  · subst h
    simp [prevMonth, nextMonth, Prod.ext_iff]
  · have h2 : ¬(m - 1 = 11) := by omega
    simp [prevMonth, nextMonth, h, h2, Prod.ext_iff]
    omega

theorem mkDate_borrow {y : Int} {m : Nat} {d : Int} (todMs : Int) (hm : m ≤ 11) (hd : d ≤ 0)
    (h1 : 1 ≤ d + daysInMonth (prevMonth y m).1 (prevMonth y m).2) :
    mkDate y m d todMs =
      ⟨(prevMonth y m).1, (prevMonth y m).2,
        d + daysInMonth (prevMonth y m).1 (prevMonth y m).2, todMs⟩ := by
  unfold mkDate
  rw [normMonth_of_nat y m hm]
  have hfuel : (1 - d).toNat.succ = ((1 - d).toNat - 1).succ.succ := by omega
  rw [hfuel]
  simp only [borrowAux, if_neg (show ¬(1 ≤ d) by omega), if_pos h1]
  have hcarry : d + daysInMonth (prevMonth y m).1 (prevMonth y m).2 ≤
      daysInMonth (prevMonth y m).1 (prevMonth y m).2 := by omega
  simp only [carryAux, if_pos hcarry]

theorem mkDate_carry {y : Int} {m : Nat} {d : Int} (todMs : Int) (hm : m ≤ 11)
    (h1 : daysInMonth y m < d)
    (h2 : d - daysInMonth y m ≤ daysInMonth (nextMonth y m).1 (nextMonth y m).2) :
    mkDate y m d todMs = ⟨(nextMonth y m).1, (nextMonth y m).2, d - daysInMonth y m, todMs⟩ := by
  have hb := daysInMonth_bounds y m
  unfold mkDate
  rw [normMonth_of_nat y m hm]
  simp only [borrowAux, if_pos (show 1 ≤ d by omega)]
  have hfuel : d.toNat.succ = (d.toNat - 1).succ.succ := by omega
  rw [hfuel]
  simp only [carryAux, if_neg (show ¬(d ≤ daysInMonth y m) by omega), if_pos h2]

theorem mkDate_norm (y mi d todMs : Int) (h1 : 1 ≤ d)
    (h2 : d ≤ daysInMonth (normMonth y mi).1 (normMonth y mi).2) :
    mkDate y mi d todMs = ⟨(normMonth y mi).1, (normMonth y mi).2, d, todMs⟩ := by
  unfold mkDate
  simp only [borrowAux, if_pos h1, carryAux, if_pos h2]

/-! ## Claim C4: the default branch of getPeriodBounds -/

/-- C4 counterexample: at one millisecond past the first second of a day
(any instant strictly after midnight) and an unknown period tag, the
current range returned by getPeriodBounds runs from the start of today to
now, so it is not the empty range the claim asserts. -/
theorem getPeriodBounds_default_counterexample :
    (getPeriodBounds "quarter" ⟨2024, 5, 15, 1000⟩).current.stop ≠
      (getPeriodBounds "quarter" ⟨2024, 5, 15, 1000⟩).current.start := by
  decide

/-- C4 amended: for every period tag outside today, week, month and year,
getPeriodBounds returns previous as the empty range from the start of
today to the start of today, while current is the half-open range from the
start of today to now (the same current range the today period produces),
which is empty only at the exact stroke of midnight. -/
theorem getPeriodBounds_default (period : String) (now : JSDate)
    (h : ¬(period = "today" ∨ period = "week" ∨ period = "month" ∨ period = "year")) :
    getPeriodBounds period now =
        ⟨⟨jsSetHoursZero now, now⟩, ⟨jsSetHoursZero now, jsSetHoursZero now⟩⟩ ∧
      (getPeriodBounds period now).previous.start =
        (getPeriodBounds period now).previous.stop := by
  push_neg at h
  obtain ⟨h1, h2, h3, h4⟩ := h
  unfold getPeriodBounds
  rw [if_neg h1, if_neg h2, if_neg h3, if_neg h4]
  exact ⟨rfl, rfl⟩

/-- C4 amended witness at a concrete unknown tag and instant. -/
theorem getPeriodBounds_default_witness :
    getPeriodBounds "quarter" ⟨2024, 5, 15, 1000⟩ =
        ⟨⟨jsSetHoursZero ⟨2024, 5, 15, 1000⟩, ⟨2024, 5, 15, 1000⟩⟩,
          ⟨jsSetHoursZero ⟨2024, 5, 15, 1000⟩, jsSetHoursZero ⟨2024, 5, 15, 1000⟩⟩⟩ ∧
      (getPeriodBounds "quarter" ⟨2024, 5, 15, 1000⟩).previous.start =
        (getPeriodBounds "quarter" ⟨2024, 5, 15, 1000⟩).previous.stop :=
  getPeriodBounds_default "quarter" ⟨2024, 5, 15, 1000⟩ (by decide)

/-! ## Claim C5: ordering invariants of getPeriodBounds -/

/-- C5: for every period tag among today, week, month and year and every
normalized now, the bounds satisfy previous.stop at or before
current.start (the ranges never overlap), each range runs forward
(start at or before stop), and for today the ranges are adjacent:
previous.stop equals current.start, previous.start is a midnight, and the
calendar day after previous.start is exactly current.start (the start of
the current day), so previous covers precisely the prior calendar day. -/
theorem getPeriodBounds_invariants (period : String) (now : JSDate)
    (hn : now.Normalized)
    (hp : period = "today" ∨ period = "week" ∨ period = "month" ∨ period = "year") :
    (getPeriodBounds period now).previous.stop.getTime ≤
        (getPeriodBounds period now).current.start.getTime ∧
      (getPeriodBounds period now).current.start.getTime ≤
        (getPeriodBounds period now).current.stop.getTime ∧
      (getPeriodBounds period now).previous.start.getTime ≤
        (getPeriodBounds period now).previous.stop.getTime ∧
      (period = "today" →
        (getPeriodBounds period now).previous.stop =
            (getPeriodBounds period now).current.start ∧
          (getPeriodBounds period now).previous.start.todMs = 0 ∧
          mkDate (getPeriodBounds period now).previous.start.year
              (getPeriodBounds period now).previous.start.month
              ((getPeriodBounds period now).previous.start.day + 1) 0 =
            (getPeriodBounds period now).current.start) := by
  obtain ⟨y, m, d, tod⟩ := now
  obtain ⟨hm, hd1, hd2, ht0, ht1⟩ := hn
  dsimp only at hm hd1 hd2 ht0 ht1
  have hbm := daysInMonth_bounds y m
  have hbp := daysInMonth_bounds (prevMonth y m).1 (prevMonth y m).2
  have hnowN : (JSDate.mk y m d tod).Normalized := ⟨hm, hd1, hd2, ht0, ht1⟩
  have hpmle := prevMonth_le y m hm
  have hlexPrev : ∀ dd tt dd2 tt2, JSDate.lexLt
      ⟨(prevMonth y m).1, (prevMonth y m).2, dd, tt⟩ ⟨y, m, dd2, tt2⟩ := by
    intro dd tt dd2 tt2
    unfold JSDate.lexLt prevMonth
    by_cases h0 : m = 0
    · subst h0
      dsimp only
      rw [if_pos rfl]
      dsimp only
      left
      omega
    · rw [if_neg h0]
      dsimp only
      right
      exact ⟨rfl, .inl (by omega)⟩
  rcases hp with rfl | rfl | rfl | rfl
  · -- today
    have hgpb : getPeriodBounds "today" ⟨y, m, d, tod⟩ =
        ⟨⟨⟨y, m, d, 0⟩, ⟨y, m, d, tod⟩⟩, ⟨mkDate y m (d - 1) 0, ⟨y, m, d, 0⟩⟩⟩ := rfl
    rw [hgpb]
    by_cases hd : 2 ≤ d
    · have hP : mkDate y m (d - 1) 0 = ⟨y, m, d - 1, 0⟩ :=
        mkDate_valid 0 hm (by omega) (by omega)
      rw [hP]
      refine ⟨le_refl _, ?_, ?_, ?_⟩
      · dsimp only [JSDate.getTime, JSDate.dayNumber]
        omega
      · dsimp only [JSDate.getTime, JSDate.dayNumber]
        omega
      · intro _
        refine ⟨rfl, rfl, ?_⟩
        show mkDate y m (d - 1 + 1) 0 = ⟨y, m, d, 0⟩
        rw [show d - 1 + 1 = d by ring]
        exact mkDate_valid 0 hm hd1 hd2
    · have hd0 : d = 1 := by omega
      subst hd0
      have hP : mkDate y m ((1 : Int) - 1) 0 =
          ⟨(prevMonth y m).1, (prevMonth y m).2,
            (1 : Int) - 1 + daysInMonth (prevMonth y m).1 (prevMonth y m).2, 0⟩ :=
        mkDate_borrow 0 hm (by omega) (by omega)
      rw [hP]
      have hprevN : (JSDate.mk (prevMonth y m).1 (prevMonth y m).2
          ((1 : Int) - 1 + daysInMonth (prevMonth y m).1 (prevMonth y m).2) 0).Normalized := by
        refine ⟨hpmle, ?_, ?_, ?_, ?_⟩ <;> dsimp only <;> omega
      have hcurN : (JSDate.mk y m 1 0).Normalized := by
        refine ⟨hm, ?_, ?_, ?_, ?_⟩ <;> dsimp only <;> omega
      refine ⟨le_refl _, ?_, (getTime_lt_of_lexLt hprevN hcurN (hlexPrev _ _ _ _)).le, ?_⟩
      · dsimp only [JSDate.getTime, JSDate.dayNumber]
        omega
      · intro _
        refine ⟨rfl, rfl, ?_⟩
        show mkDate (prevMonth y m).1 (prevMonth y m).2
            ((1 : Int) - 1 + daysInMonth (prevMonth y m).1 (prevMonth y m).2 + 1) 0 =
          ⟨y, m, 1, 0⟩
        have hbn := daysInMonth_bounds
          (nextMonth (prevMonth y m).1 (prevMonth y m).2).1
          (nextMonth (prevMonth y m).1 (prevMonth y m).2).2
        have hc := mkDate_carry
          (y := (prevMonth y m).1) (m := (prevMonth y m).2)
          (d := (1 : Int) - 1 + daysInMonth (prevMonth y m).1 (prevMonth y m).2 + 1)
          0 hpmle (by omega) (by omega)
        rw [hc, nextMonth_prevMonth y m hm]
        have hday : (1 : Int) - 1 + daysInMonth (prevMonth y m).1 (prevMonth y m).2 + 1 -
            daysInMonth (prevMonth y m).1 (prevMonth y m).2 = 1 := by omega
        rw [hday]
  · -- week
    have hgpb : getPeriodBounds "week" ⟨y, m, d, tod⟩ =
        ⟨⟨mkDate y m (d - 6) 0, ⟨y, m, d, tod⟩⟩,
          ⟨mkDate (mkDate y m (d - 6) 0).year (mkDate y m (d - 6) 0).month
              ((mkDate y m (d - 6) 0).day - 7) 0,
            mkDate y m (d - 6) 0⟩⟩ := rfl
    rw [hgpb]
    by_cases h6 : 7 ≤ d
    · have hS : mkDate y m (d - 6) 0 = ⟨y, m, d - 6, 0⟩ :=
        mkDate_valid 0 hm (by omega) (by omega)
      rw [hS]
      by_cases h13 : 14 ≤ d
      · have hP : mkDate y m (d - 6 - 7) 0 = ⟨y, m, d - 6 - 7, 0⟩ :=
          mkDate_valid 0 hm (by omega) (by omega)
        dsimp only
        rw [hP]
        refine ⟨le_refl _, ?_, ?_, fun hcon => absurd hcon (by decide)⟩
        · dsimp only [JSDate.getTime, JSDate.dayNumber]
          omega
        · dsimp only [JSDate.getTime, JSDate.dayNumber]
          omega
      · have hP : mkDate y m (d - 6 - 7) 0 =
            ⟨(prevMonth y m).1, (prevMonth y m).2,
              d - 6 - 7 + daysInMonth (prevMonth y m).1 (prevMonth y m).2, 0⟩ :=
          mkDate_borrow 0 hm (by omega) (by omega)
        dsimp only
        rw [hP]
        have hprevN : (JSDate.mk (prevMonth y m).1 (prevMonth y m).2
            (d - 6 - 7 + daysInMonth (prevMonth y m).1 (prevMonth y m).2) 0).Normalized := by
          refine ⟨hpmle, ?_, ?_, ?_, ?_⟩ <;> dsimp only <;> omega
        have hSN : (JSDate.mk y m (d - 6) 0).Normalized := by
          refine ⟨hm, ?_, ?_, ?_, ?_⟩ <;> dsimp only <;> omega
        refine ⟨le_refl _, ?_, (getTime_lt_of_lexLt hprevN hSN (hlexPrev _ _ _ _)).le,
          fun hcon => absurd hcon (by decide)⟩
        dsimp only [JSDate.getTime, JSDate.dayNumber]
        omega
    · have hS : mkDate y m (d - 6) 0 =
          ⟨(prevMonth y m).1, (prevMonth y m).2,
            d - 6 + daysInMonth (prevMonth y m).1 (prevMonth y m).2, 0⟩ :=
        mkDate_borrow 0 hm (by omega) (by omega)
      rw [hS]
      have hSN : (JSDate.mk (prevMonth y m).1 (prevMonth y m).2
          (d - 6 + daysInMonth (prevMonth y m).1 (prevMonth y m).2) 0).Normalized := by
        refine ⟨hpmle, ?_, ?_, ?_, ?_⟩ <;> dsimp only <;> omega
      have hP : mkDate (prevMonth y m).1 (prevMonth y m).2
          (d - 6 + daysInMonth (prevMonth y m).1 (prevMonth y m).2 - 7) 0 =
          ⟨(prevMonth y m).1, (prevMonth y m).2,
            d - 6 + daysInMonth (prevMonth y m).1 (prevMonth y m).2 - 7, 0⟩ :=
        mkDate_valid 0 hpmle (by omega) (by omega)
      dsimp only
      rw [hP]
      refine ⟨le_refl _, (getTime_lt_of_lexLt hSN hnowN (hlexPrev _ _ _ _)).le, ?_,
        fun hcon => absurd hcon (by decide)⟩
      dsimp only [JSDate.getTime, JSDate.dayNumber]
      omega
  · -- month
    have hgpb : getPeriodBounds "month" ⟨y, m, d, tod⟩ =
        ⟨⟨mkDate y m 1 0, ⟨y, m, d, tod⟩⟩,
          ⟨mkDate (mkDate y m 1 0).year (((mkDate y m 1 0).month : Int) - 1)
              (mkDate y m 1 0).day 0,
            mkDate y m 1 0⟩⟩ := rfl
    rw [hgpb]
    have hS : mkDate y m 1 0 = ⟨y, m, 1, 0⟩ :=
      mkDate_valid 0 hm (by omega) (by omega)
    rw [hS]
    have hSN : (JSDate.mk y m 1 0).Normalized := by
      refine ⟨hm, ?_, ?_, ?_, ?_⟩ <;> dsimp only <;> omega
    dsimp only
    by_cases h0 : m = 0
    · subst h0
      have hnm : normMonth y (((0 : Nat) : Int) - 1) = (y - 1, 11) := by
        unfold normMonth
        refine Prod.ext ?_ ?_ <;> dsimp only <;> omega
      have hbprev := daysInMonth_bounds (y - 1) 11
      have hP : mkDate y (((0 : Nat) : Int) - 1) 1 0 = ⟨y - 1, 11, 1, 0⟩ := by
        rw [mkDate_norm y (((0 : Nat) : Int) - 1) 1 0 (by omega) (by rw [hnm]; dsimp only; omega),
          hnm]
      rw [hP]
      have hprevN : (JSDate.mk (y - 1) 11 1 0).Normalized := by
        refine ⟨?_, ?_, ?_, ?_, ?_⟩ <;> dsimp only <;> omega
      refine ⟨le_refl _, ?_,
        (getTime_lt_of_lexLt hprevN hSN (.inl (show y - 1 < y by omega))).le,
        fun hcon => absurd hcon (by decide)⟩
      dsimp only [JSDate.getTime, JSDate.dayNumber]
      omega
    · have hnm : normMonth y ((m : Int) - 1) = (y, m - 1) := by
        unfold normMonth
        refine Prod.ext ?_ ?_ <;> dsimp only <;> omega
      have hbprev := daysInMonth_bounds y (m - 1)
      have hP : mkDate y ((m : Int) - 1) 1 0 = ⟨y, m - 1, 1, 0⟩ := by
        rw [mkDate_norm y ((m : Int) - 1) 1 0 (by omega) (by rw [hnm]; dsimp only; omega), hnm]
      rw [hP]
      have hprevN : (JSDate.mk y (m - 1) 1 0).Normalized := by
        refine ⟨?_, ?_, ?_, ?_, ?_⟩ <;> dsimp only <;> omega
      refine ⟨le_refl _, ?_,
        (getTime_lt_of_lexLt hprevN hSN (.inr ⟨rfl, .inl (show m - 1 < m by omega)⟩)).le,
        fun hcon => absurd hcon (by decide)⟩
      dsimp only [JSDate.getTime, JSDate.dayNumber]
      omega
  · -- year
    have hgpb : getPeriodBounds "year" ⟨y, m, d, tod⟩ =
        ⟨⟨mkDate y 0 1 0, ⟨y, m, d, tod⟩⟩,
          ⟨mkDate ((mkDate y 0 1 0).year - 1) ((mkDate y 0 1 0).month : Int)
              (mkDate y 0 1 0).day 0,
            mkDate y 0 1 0⟩⟩ := rfl
    rw [hgpb]
    have hb0 := daysInMonth_bounds y 0
    have hb0p := daysInMonth_bounds (y - 1) 0
    have hnm : normMonth y 0 = (y, 0) := by
      unfold normMonth
      refine Prod.ext ?_ ?_ <;> dsimp only <;> omega
    have hS : mkDate y 0 1 0 = ⟨y, 0, 1, 0⟩ := by
      rw [mkDate_norm y 0 1 0 (by omega) (by rw [hnm]; dsimp only; omega), hnm]
    rw [hS]
    dsimp only
    have hnmp : normMonth (y - 1) (((0 : Nat) : Int)) = (y - 1, 0) := by
      unfold normMonth
      refine Prod.ext ?_ ?_ <;> dsimp only <;> omega
    have hP : mkDate (y - 1) (((0 : Nat) : Int)) 1 0 = ⟨y - 1, 0, 1, 0⟩ := by
      rw [mkDate_norm (y - 1) (((0 : Nat) : Int)) 1 0 (by omega)
        (by rw [hnmp]; dsimp only; omega), hnmp]
    rw [hP]
    have hSN : (JSDate.mk y 0 1 0).Normalized := by
      refine ⟨?_, ?_, ?_, ?_, ?_⟩ <;> dsimp only <;> omega
    have hprevN : (JSDate.mk (y - 1) 0 1 0).Normalized := by
      refine ⟨?_, ?_, ?_, ?_, ?_⟩ <;> dsimp only <;> omega
    refine ⟨le_refl _, ?_,
      (getTime_lt_of_lexLt hprevN hSN (.inl (show y - 1 < y by omega))).le,
      fun hcon => absurd hcon (by decide)⟩
    refine getTime_le_comp hSN hnowN (.inr ⟨rfl, ?_⟩)
    show (0 : Nat) < m ∨ ((0 : Nat) = m ∧ ((1 : Int) < d ∨ ((1 : Int) = d ∧ (0 : Int) ≤ tod)))
    rcases Nat.eq_zero_or_pos m with hm0 | hm0
    · rcases lt_or_eq_of_le hd1 with hdlt | hdeq
      · exact .inr ⟨hm0.symm, .inl hdlt⟩
      · exact .inr ⟨hm0.symm, .inr ⟨hdeq, ht0⟩⟩
    · exact .inl hm0

/-- C5 witness at a concrete normalized instant, one period per range
property. -/
theorem getPeriodBounds_invariants_witness :
    (getPeriodBounds "today" ⟨2024, 0, 1, 500⟩).previous.stop.getTime ≤
        (getPeriodBounds "today" ⟨2024, 0, 1, 500⟩).current.start.getTime ∧
      (getPeriodBounds "today" ⟨2024, 0, 1, 500⟩).previous.stop =
        (getPeriodBounds "today" ⟨2024, 0, 1, 500⟩).current.start :=
  ⟨(getPeriodBounds_invariants "today" ⟨2024, 0, 1, 500⟩ (by decide) (.inl rfl)).1,
    ((getPeriodBounds_invariants "today" ⟨2024, 0, 1, 500⟩ (by decide)
      (.inl rfl)).2.2.2 rfl).1⟩

/-! ## Digit string lemmas -/

theorem digitChar_toNat {n : Nat} (h : n < 10) : (digitChar n).toNat = 48 + n := by
  interval_cases n <;> decide

theorem digitChar_isDigit {n : Nat} (h : n < 10) : isDigitChar (digitChar n) = true := by
  interval_cases n <;> decide

theorem parseDigits_append_one (cs : List Char) (c : Char) :
    parseDigits (cs ++ [c]) = parseDigits cs * 10 + (c.toNat - 48) := by
  unfold parseDigits
  rw [List.foldl_append]
  rfl

theorem natToDigitsAux_spec (fuel : Nat) : ∀ n : Nat, n ≤ fuel ∨ n < 10 →
    parseDigits (natToDigitsAux fuel n) = n ∧
      (∀ c ∈ natToDigitsAux fuel n, isDigitChar c = true) ∧
      natToDigitsAux fuel n ≠ [] := by
  induction fuel with
  | zero =>
    intro n hn
    have h10 : n < 10 := by omega
    have hmod : n % 10 = n := by omega
    refine ⟨?_, ?_, by simp [natToDigitsAux]⟩
    · show parseDigits [digitChar (n % 10)] = n
      rw [hmod]
      unfold parseDigits
      simp [digitChar_toNat h10]
    · intro c hc
      simp only [natToDigitsAux, List.mem_singleton] at hc
      subst hc
      exact digitChar_isDigit (by omega)
  | succ fuel ih =>
    intro n hn
    by_cases h10 : n < 10
    · refine ⟨?_, ?_, by simp [natToDigitsAux, h10]⟩
      · show parseDigits (natToDigitsAux (fuel + 1) n) = n
        simp only [natToDigitsAux, if_pos h10]
        unfold parseDigits
        simp [digitChar_toNat h10]
      · intro c hc
        simp only [natToDigitsAux, if_pos h10, List.mem_singleton] at hc
        subst hc
        exact digitChar_isDigit h10
    · have hrec := ih (n / 10) (by omega)
      simp only [natToDigitsAux, if_neg h10]
      refine ⟨?_, ?_, by simp⟩
      · rw [parseDigits_append_one, hrec.1, digitChar_toNat (show n % 10 < 10 by omega)]
        omega
      · intro c hc
        rw [List.mem_append] at hc
        rcases hc with hc | hc
        · exact hrec.2.1 c hc
        · simp only [List.mem_singleton] at hc
          subst hc
          exact digitChar_isDigit (by omega)

theorem natToDigits_spec (n : Nat) :
    parseDigits (natToDigits n) = n ∧
      (∀ c ∈ natToDigits n, isDigitChar c = true) ∧ natToDigits n ≠ [] :=
  natToDigitsAux_spec n n (.inl (le_refl n))

theorem parseDigits_cons_zero (cs : List Char) :
    parseDigits ('0' :: cs) = parseDigits cs := by
  unfold parseDigits
  rfl

theorem pad2_spec (n : Nat) :
    parseDigits (pad2 n) = n ∧ (∀ c ∈ pad2 n, isDigitChar c = true) ∧ pad2 n ≠ [] := by
  unfold pad2
  split_ifs with h
  · refine ⟨?_, ?_, by simp⟩
    · rw [parseDigits_cons_zero]
      exact (natToDigits_spec n).1
    · intro c hc
      simp only [List.mem_cons] at hc
      rcases hc with rfl | hc
      · decide
      · exact (natToDigits_spec n).2.1 c hc
  · exact natToDigits_spec n

theorem isDigitChar_not_sep {c : Char} (h : isDigitChar c = true) :
    ¬(c = '-' ∨ c = ' ' ∨ c = ':') := by
  intro hor
  rcases hor with rfl | rfl | rfl <;> revert h <;> decide

theorem isDigitChar_ne_sign {c : Char} (h : isDigitChar c = true) :
    ¬(c = '-') ∧ ¬(c = '+') := by
  constructor <;> intro he <;> subst he <;> revert h <;> decide

theorem takeWhile_all {p : Char → Bool} (cs : List Char) (h : ∀ c ∈ cs, p c = true) :
    cs.takeWhile p = cs := by
  induction cs with
  | nil => rfl
  | cons c rest ih =>
    rw [List.takeWhile_cons, if_pos (h c (by simp))]
    rw [ih (fun x hx => h x (by simp [hx]))]

theorem parseIntChars_digits (cs : List Char) (hne : cs ≠ [])
    (h : ∀ c ∈ cs, isDigitChar c = true) :
    parseIntChars cs = some ((parseDigits cs : Nat) : Int) := by
  match cs with
  | [] => exact absurd rfl hne
  | c :: rest =>
    have hc := h c (by simp)
    have hsign := isDigitChar_ne_sign hc
    have heq : parseIntChars (c :: rest) =
        (if c = '-' then
          let ds := rest.takeWhile isDigitChar
          if ds.isEmpty then none else some (-(parseDigits ds : Int))
        else if c = '+' then
          let ds := rest.takeWhile isDigitChar
          if ds.isEmpty then none else some ((parseDigits ds : Int))
        else
          let ds := (c :: rest).takeWhile isDigitChar
          if ds.isEmpty then none else some ((parseDigits ds : Int))) := rfl
    rw [heq, if_neg hsign.1, if_neg hsign.2]
    have htw : (c :: rest).takeWhile isDigitChar = c :: rest := takeWhile_all _ h
    simp only [htw]
    rw [if_neg (by simp)]

/-! ## Split lemmas -/

theorem splitSeps_cons (c : Char) (rest : List Char) :
    splitSeps (c :: rest) =
      if c = '-' ∨ c = ' ' ∨ c = ':' then [] :: splitSeps rest
      else
        match splitSeps rest with
        | [] => [[c]]
        | p :: ps => (c :: p) :: ps := rfl

theorem splitSeps_nosep (cs : List Char)
    (h : ∀ c ∈ cs, ¬(c = '-' ∨ c = ' ' ∨ c = ':')) :
    splitSeps cs = [cs] := by
  induction cs with
  | nil => rfl
  | cons c rest ih =>
    rw [splitSeps_cons, if_neg (h c (by simp)), ih (fun x hx => h x (by simp [hx]))]

theorem splitSeps_append (xs : List Char) (sep : Char)
    (hsep : sep = '-' ∨ sep = ' ' ∨ sep = ':') (ys : List Char)
    (h : ∀ c ∈ xs, ¬(c = '-' ∨ c = ' ' ∨ c = ':')) :
    splitSeps (xs ++ sep :: ys) = xs :: splitSeps ys := by
  induction xs with
  | nil =>
    show splitSeps (sep :: ys) = [] :: splitSeps ys
    rw [splitSeps_cons, if_pos hsep]
  | cons c rest ih =>
    show splitSeps (c :: (rest ++ sep :: ys)) = (c :: rest) :: splitSeps ys
    rw [splitSeps_cons, if_neg (h c (by simp)), ih (fun x hx => h x (by simp [hx]))]

theorem parseIntChars_getD {cs : List Char} {k : Nat} (h1 : parseDigits cs = k)
    (h2 : ∀ c ∈ cs, isDigitChar c = true) (h3 : cs ≠ []) :
    (parseIntChars cs).getD 0 = (k : Int) := by
  rw [parseIntChars_digits cs h3 h2, h1, Option.getD_some]

/-! ## Round trip of getDateKey and parseDateKey

For a normalized date with a year of at least 100 (so that decimal
rendering has no sign and the two-digit-year constructor quirk does not
fire), parsing the bucket key of a date recovers exactly the calendar
truncation of that date at the bucket granularity. -/

theorem parseDateKey_getDateKey (period : String) (dt : JSDate)
    (hn : dt.Normalized) (hy : 100 ≤ dt.year) :
    parseDateKey (getDateKey dt period) period = truncDate period dt := by
  obtain ⟨y, m, d, tod⟩ := dt
  obtain ⟨hm, hd1, hd2, ht0, ht1⟩ := hn
  dsimp only at hm hd1 hd2 ht0 ht1 hy
  have hbm := daysInMonth_bounds y m
  have hyChars : intToChars y = natToDigits y.toNat := by
    unfold intToChars
    rw [if_neg (by omega)]
  have hyspec := natToDigits_spec y.toNat
  have hmospec := pad2_spec (m + 1)
  have hdaspec := pad2_spec d.toNat
  have hhrspec := pad2_spec ((tod / 3600000).toNat)
  have hyNS : ∀ c ∈ natToDigits y.toNat, ¬(c = '-' ∨ c = ' ' ∨ c = ':') :=
    fun c hc => isDigitChar_not_sep (hyspec.2.1 c hc)
  have hmoNS : ∀ c ∈ pad2 (m + 1), ¬(c = '-' ∨ c = ' ' ∨ c = ':') :=
    fun c hc => isDigitChar_not_sep (hmospec.2.1 c hc)
  have hdaNS : ∀ c ∈ pad2 d.toNat, ¬(c = '-' ∨ c = ' ' ∨ c = ':') :=
    fun c hc => isDigitChar_not_sep (hdaspec.2.1 c hc)
  have hhrNS : ∀ c ∈ pad2 ((tod / 3600000).toNat), ¬(c = '-' ∨ c = ' ' ∨ c = ':') :=
    fun c hc => isDigitChar_not_sep (hhrspec.2.1 c hc)
  have hyv : (parseIntChars (natToDigits y.toNat)).getD 0 = ((y.toNat : Nat) : Int) :=
    parseIntChars_getD hyspec.1 hyspec.2.1 hyspec.2.2
  have hmov : (parseIntChars (pad2 (m + 1))).getD 0 = ((m + 1 : Nat) : Int) :=
    parseIntChars_getD hmospec.1 hmospec.2.1 hmospec.2.2
  have hdav : (parseIntChars (pad2 d.toNat)).getD 0 = ((d.toNat : Nat) : Int) :=
    parseIntChars_getD hdaspec.1 hdaspec.2.1 hdaspec.2.2
  have hhrv : (parseIntChars (pad2 ((tod / 3600000).toNat))).getD 0 =
      (((tod / 3600000).toNat : Nat) : Int) :=
    parseIntChars_getD hhrspec.1 hhrspec.2.1 hhrspec.2.2
  have hyc : ((y.toNat : Nat) : Int) = y := by omega
  have hdc : ((d.toNat : Nat) : Int) = d := by omega
  have hhc : (((tod / 3600000).toNat : Nat) : Int) = tod / 3600000 := by omega
  have hnoshift : ¬(0 ≤ y ∧ y ≤ 99) := by omega
  have hnm : normMonth y (((m + 1 : Nat) : Int) - 1) = (y, m) := by
    unfold normMonth
    refine Prod.ext ?_ ?_ <;> dsimp only <;> omega
  by_cases hper : period = "today"
  · have hkey : getDateKey ⟨y, m, d, tod⟩ period =
        ⟨natToDigits y.toNat ++ '-' :: (pad2 (m + 1) ++ '-' :: (pad2 d.toNat ++
          ' ' :: (pad2 ((tod / 3600000).toNat) ++ [':', '0', '0'])))⟩ := by
      unfold getDateKey
      rw [if_pos hper]
      dsimp only [JSDate.hours]
      rw [hyChars]
      congr 1
      simp [List.append_assoc]
    rw [hkey]
    unfold parseDateKey
    rw [if_pos hper]
    dsimp only
    have hsplit : splitSeps (natToDigits y.toNat ++ '-' :: (pad2 (m + 1) ++
        '-' :: (pad2 d.toNat ++ ' ' :: (pad2 ((tod / 3600000).toNat) ++ [':', '0', '0'])))) =
        [natToDigits y.toNat, pad2 (m + 1), pad2 d.toNat,
          pad2 ((tod / 3600000).toNat), ['0', '0']] := by
      rw [splitSeps_append _ '-' (.inl rfl) _ hyNS,
        splitSeps_append _ '-' (.inl rfl) _ hmoNS,
        splitSeps_append _ ' ' (.inr (.inl rfl)) _ hdaNS,
        show pad2 ((tod / 3600000).toNat) ++ [':', '0', '0'] =
          pad2 ((tod / 3600000).toNat) ++ ':' :: ['0', '0'] from rfl,
        splitSeps_append _ ':' (.inr (.inr rfl)) _ hhrNS,
        splitSeps_nosep ['0', '0'] (by decide)]
    rw [hsplit]
    simp only [List.getD_cons_zero, List.getD_cons_succ]
    rw [hyv, hmov, hdav, hhrv, hyc, hdc, hhc]
    unfold jsDateCtor
    rw [if_neg hnoshift]
    rw [mkDate_norm _ _ _ _ (by omega) (by rw [hnm]; dsimp only; omega), hnm]
    unfold truncDate
    rw [if_pos hper]
    dsimp only [JSDate.hours]
  · by_cases hper2 : period = "week" ∨ period = "month"
    · have hkey : getDateKey ⟨y, m, d, tod⟩ period =
          ⟨natToDigits y.toNat ++ '-' :: (pad2 (m + 1) ++ '-' :: pad2 d.toNat)⟩ := by
        unfold getDateKey
        rw [if_neg hper, if_pos hper2]
        dsimp only
        rw [hyChars]
        congr 1
        simp [List.append_assoc]
      rw [hkey]
      unfold parseDateKey
      rw [if_neg hper, if_pos hper2]
      dsimp only
      have hsplit : splitSeps (natToDigits y.toNat ++ '-' :: (pad2 (m + 1) ++
          '-' :: pad2 d.toNat)) =
          [natToDigits y.toNat, pad2 (m + 1), pad2 d.toNat] := by
        rw [splitSeps_append _ '-' (.inl rfl) _ hyNS,
          splitSeps_append _ '-' (.inl rfl) _ hmoNS,
          splitSeps_nosep _ hdaNS]
      rw [hsplit]
      simp only [List.getD_cons_zero, List.getD_cons_succ]
      rw [hyv, hmov, hdav, hyc, hdc]
      unfold jsDateCtor
      rw [if_neg hnoshift]
      rw [mkDate_norm _ _ _ _ (by omega) (by rw [hnm]; dsimp only; omega), hnm]
      unfold truncDate
      rw [if_neg hper]
      have hnotyear : ¬(period = "year") := by
        rcases hper2 with rfl | rfl <;> decide
      rw [if_neg hnotyear]
    · by_cases hper3 : period = "year"
      · have hkey : getDateKey ⟨y, m, d, tod⟩ period =
            ⟨natToDigits y.toNat ++ '-' :: pad2 (m + 1)⟩ := by
          unfold getDateKey
          rw [if_neg hper, if_neg hper2, if_pos hper3]
          dsimp only
          rw [hyChars]
        rw [hkey]
        unfold parseDateKey
        rw [if_neg hper, if_neg hper2, if_pos hper3]
        dsimp only
        have hsplit : splitSeps (natToDigits y.toNat ++ '-' :: pad2 (m + 1)) =
            [natToDigits y.toNat, pad2 (m + 1)] := by
          rw [splitSeps_append _ '-' (.inl rfl) _ hyNS, splitSeps_nosep _ hmoNS]
        rw [hsplit]
        simp only [List.getD_cons_zero, List.getD_cons_succ]
        rw [hyv, hmov, hyc]
        unfold jsDateCtor
        rw [if_neg hnoshift]
        rw [mkDate_norm _ _ _ _ (by omega) (by rw [hnm]; dsimp only; omega), hnm]
        unfold truncDate
        rw [if_neg hper, if_pos hper3]
      · have hkey : getDateKey ⟨y, m, d, tod⟩ period =
            ⟨natToDigits y.toNat ++ '-' :: (pad2 (m + 1) ++ '-' :: pad2 d.toNat)⟩ := by
          unfold getDateKey
          rw [if_neg hper, if_neg hper2, if_neg hper3]
          dsimp only
          rw [hyChars]
          congr 1
          simp [List.append_assoc]
        rw [hkey]
        unfold parseDateKey
        rw [if_neg hper, if_neg hper2, if_neg hper3]
        dsimp only
        have hsplit : splitSeps (natToDigits y.toNat ++ '-' :: (pad2 (m + 1) ++
            '-' :: pad2 d.toNat)) =
            [natToDigits y.toNat, pad2 (m + 1), pad2 d.toNat] := by
          rw [splitSeps_append _ '-' (.inl rfl) _ hyNS,
            splitSeps_append _ '-' (.inl rfl) _ hmoNS,
            splitSeps_nosep _ hdaNS]
        rw [hsplit]
        simp only [List.getD_cons_zero, List.getD_cons_succ]
        rw [show (if (pad2 d.toNat).isEmpty then ['1'] else pad2 d.toNat) = pad2 d.toNat
          from by rw [if_neg (by simpa [List.isEmpty_iff] using hdaspec.2.2)]]
        rw [hyv, hmov, hdav, hyc, hdc]
        unfold jsDateCtor
        rw [if_neg hnoshift]
        rw [mkDate_norm _ _ _ _ (by omega) (by rw [hnm]; dsimp only; omega), hnm]
        unfold truncDate
        rw [if_neg hper, if_neg hper3]

/-! ## Injectivity of getTime on normalized dates -/

theorem lexLt_trichotomy (a b : JSDate) : a.lexLt b ∨ b.lexLt a ∨ a = b := by
  obtain ⟨y1, m1, d1, t1⟩ := a
  obtain ⟨y2, m2, d2, t2⟩ := b
  simp only [JSDate.lexLt, JSDate.mk.injEq]
  omega

theorem getTime_inj {a b : JSDate} (ha : a.Normalized) (hb : b.Normalized)
    (h : a.getTime = b.getTime) : a = b := by
  rcases lexLt_trichotomy a b with hl | hl | hl
  · exact absurd h (getTime_lt_of_lexLt ha hb hl).ne
  · exact absurd h.symm (getTime_lt_of_lexLt hb ha hl).ne
  · exact hl

theorem truncDate_normalized (period : String) {dt : JSDate} (hn : dt.Normalized) :
    (truncDate period dt).Normalized := by
  obtain ⟨y, m, d, tod⟩ := dt
  obtain ⟨hm, hd1, hd2, ht0, ht1⟩ := hn
  dsimp only at hm hd1 hd2 ht0 ht1
  have hbm := daysInMonth_bounds y m
  unfold truncDate
  split_ifs <;> refine ⟨?_, ?_, ?_, ?_, ?_⟩ <;> dsimp only [JSDate.hours] <;> omega

theorem getDateKey_trunc (period : String) (dt : JSDate) :
    getDateKey (truncDate period dt) period = getDateKey dt period := by
  obtain ⟨y, m, d, tod⟩ := dt
  unfold truncDate
  by_cases h1 : period = "today"
  · rw [if_pos h1]
    unfold getDateKey JSDate.hours
    simp only [if_pos h1]
    have : tod / 3600000 * 3600000 / 3600000 = tod / 3600000 := by omega
    rw [this]
  · rw [if_neg h1]
    by_cases h3 : period = "year"
    · rw [if_pos h3]
      unfold getDateKey
      have h2 : ¬(period = "week" ∨ period = "month") := by
        subst h3
        decide
      simp only [if_neg h1, if_neg h2, if_pos h3]
    · rw [if_neg h3]
      unfold getDateKey
      by_cases h2 : period = "week" ∨ period = "month"
      · simp only [if_neg h1, if_pos h2]
      · simp only [if_neg h1, if_neg h2, if_neg h3]

/-! ## Grouping lemmas for the trend bucketizer -/

theorem groupedInsert_keys (g : List (String × TrendBucket)) (k : String) (a c : ℚ) :
    (groupedInsert g k a c).map Prod.fst =
      if k ∈ g.map Prod.fst then g.map Prod.fst else g.map Prod.fst ++ [k] := by
  induction g with
  | nil => simp [groupedInsert]
  | cons kv rest ih =>
    obtain ⟨k2, b⟩ := kv
    by_cases he : k2 = k
    · subst he
      simp [groupedInsert]
    · unfold groupedInsert
      rw [if_neg he]
      simp only [List.map_cons, List.mem_cons, ih]
      have hne : ¬(k = k2) := fun hcon => he hcon.symm
      by_cases hmem : k ∈ rest.map Prod.fst
      · rw [if_pos hmem, if_pos (by tauto)]
      · rw [if_neg hmem, if_neg (by tauto)]
        simp

theorem trendStep_keys_nodup (period : String) (r : TrendRec)
    (g : List (String × TrendBucket)) (hg : (g.map Prod.fst).Nodup) :
    ((trendStep period g r).map Prod.fst).Nodup := by
  unfold trendStep
  cases hr : r.createdAt with
  | none => exact hg
  | some date =>
    rw [groupedInsert_keys]
    split_ifs with hmem
    · exact hg
    · rw [List.nodup_append]
      exact ⟨hg, List.nodup_singleton _, by simpa using hmem⟩

theorem foldl_trendStep_keys_nodup (period : String) (docs : List TrendRec) :
    ∀ g : List (String × TrendBucket), (g.map Prod.fst).Nodup →
      ((docs.foldl (trendStep period) g).map Prod.fst).Nodup := by
  induction docs with
  | nil => exact fun g h => h
  | cons r rest ih =>
    intro g hg
    rw [List.foldl_cons]
    exact ih _ (trendStep_keys_nodup period r g hg)

theorem trendStep_keys_mem (period : String) (r : TrendRec)
    (g : List (String × TrendBucket)) (k : String) :
    k ∈ (trendStep period g r).map Prod.fst ↔
      k ∈ g.map Prod.fst ∨ ∃ dte, r.createdAt = some dte ∧ k = getDateKey dte period := by
  unfold trendStep
  cases hr : r.createdAt with
  | none => simp [hr]
  | some date =>
    rw [groupedInsert_keys]
    constructor
    · intro hk
      split_ifs at hk with hmem
      · exact .inl hk
      · rw [List.mem_append, List.mem_singleton] at hk
        rcases hk with hk | rfl
        · exact .inl hk
        · exact .inr ⟨date, rfl, rfl⟩
    · intro hk
      rcases hk with hk | ⟨dte, hdte, rfl⟩
      · split_ifs with hmem
        · exact hk
        · exact List.mem_append_left _ hk
      · cases hdte
        split_ifs with hmem
        · exact hmem
        · exact List.mem_append_right _ (by simp)

theorem foldl_trendStep_keys_mem (period : String) (docs : List TrendRec) :
    ∀ (g : List (String × TrendBucket)) (k : String),
      k ∈ (docs.foldl (trendStep period) g).map Prod.fst ↔
        k ∈ g.map Prod.fst ∨
          ∃ r ∈ docs, ∃ dte, r.createdAt = some dte ∧ k = getDateKey dte period := by
  induction docs with
  | nil => simp
  | cons r rest ih =>
    intro g k
    rw [List.foldl_cons, ih, trendStep_keys_mem]
    constructor
    · rintro ((hk | ⟨dte, hdte, rfl⟩) | ⟨r2, hr2, dte, hdte, rfl⟩)
      · exact .inl hk
      · exact .inr ⟨r, by simp, dte, hdte, rfl⟩
      · exact .inr ⟨r2, by simp [hr2], dte, hdte, rfl⟩
    · rintro (hk | ⟨r2, hr2, dte, hdte, rfl⟩)
      · exact .inl (.inl hk)
      · rw [List.mem_cons] at hr2
        rcases hr2 with rfl | hr2
        · exact .inl (.inr ⟨dte, hdte, rfl⟩)
        · exact .inr ⟨r2, hr2, dte, hdte, rfl⟩

theorem groupedInsert_profSum (g : List (String × TrendBucket)) (k : String) (a c : ℚ) :
    ((groupedInsert g k a c).map (fun kv => kv.2.profit)).sum =
      (g.map (fun kv => kv.2.profit)).sum + (a - c) := by
  induction g with
  | nil => simp [groupedInsert]
  | cons kv rest ih =>
    obtain ⟨k2, b⟩ := kv
    unfold groupedInsert
    split_ifs with he
    · simp
      ring
    · simp [ih]
      ring

theorem foldl_trendStep_profSum (period : String) (docs : List TrendRec) :
    ∀ g : List (String × TrendBucket),
      ((docs.foldl (trendStep period) g).map (fun kv => kv.2.profit)).sum =
        (g.map (fun kv => kv.2.profit)).sum + (docs.map trendContribution).sum := by
  induction docs with
  | nil => simp
  | cons r rest ih =>
    intro g
    rw [List.foldl_cons, ih]
    have hstep : ((trendStep period g r).map (fun kv => kv.2.profit)).sum =
        (g.map (fun kv => kv.2.profit)).sum + trendContribution r := by
      unfold trendStep trendContribution
      cases hr : r.createdAt with
      | none => simp
      | some date => rw [groupedInsert_profSum]
    rw [hstep]
    simp [List.map_cons, List.sum_cons]
    ring

/-! ## Claim C7: profit estimation policy of the revenue trend -/

/-- C7 counterexample: a completed order with amount 100 and a recorded
cost of exactly 0 contributes profit 30 to its bucket, because the falsy
cost 0 falls back to the estimated cost 0.7 times the amount; the claim
predicts a contribution of 100 minus the recorded cost 0. -/
theorem trend_cost_counterexample :
    ((getRevenueTrend "week" [⟨some ⟨2024, 5, 15, 0⟩, some 100, some 0⟩]).map
        (fun pt => pt.profit)) = [30] ∧ (30 : ℚ) ≠ 100 - 0 := by
  constructor
  · unfold getRevenueTrend trendStep groupedInsert
    simp [List.insertionSort, List.orderedInsert]
    norm_num
  · norm_num

/-- C7 amended: in the revenue trend, the total profit over the series
equals the sum over all kept records of amount minus cost, where the cost
defaults to 0.7 times the amount when no explicit cost is recorded or the
recorded cost is 0 (a falsy value), and equals the recorded cost only when
it is present and nonzero. -/
theorem trend_profit_policy (period : String) (docs : List TrendRec) :
    ((getRevenueTrend period docs).map (fun pt => pt.profit)).sum =
      (docs.map trendContribution).sum := by
  unfold getRevenueTrend
  have hperm := List.perm_insertionSort
    (fun a b : TrendPoint => a.date.getTime ≤ b.date.getTime)
    ((docs.foldl (trendStep period) []).map
      (fun kv => TrendPoint.mk (parseDateKey kv.1 period) kv.2.revenue kv.2.orders kv.2.profit))
  rw [List.Perm.sum_eq (hperm.map (fun pt => pt.profit))]
  rw [List.map_map]
  have hcomp : ((fun pt : TrendPoint => pt.profit) ∘
      (fun kv : String × TrendBucket =>
        TrendPoint.mk (parseDateKey kv.1 period) kv.2.revenue kv.2.orders kv.2.profit)) =
      fun kv => kv.2.profit := rfl
  rw [hcomp]
  have := foldl_trendStep_profSum period docs []
  simpa using this

/-! ## Claim C9: chronological sortedness of the revenue trend -/

/-- C9: for completed order records carrying normalized dates with years
of at least 100 (every date a Firestore range query over a period of the
modern era can return), the trend series is sorted strictly ascending by
the instant each parsed bucket key represents, contains no duplicate
bucket dates, has a point for the bucket of every kept record, and has no
point that does not come from the bucket of some record — exactly one
point per non-empty bucket, in chronological order rather than in the
lexicographic order of the key strings. -/
theorem trend_sorted_strict (period : String) (docs : List TrendRec)
    (h : ∀ r ∈ docs, ∀ dte, r.createdAt = some dte → dte.Normalized ∧ 100 ≤ dte.year) :
    List.Chain' (fun a b => a.date.getTime < b.date.getTime) (getRevenueTrend period docs) ∧
      ((getRevenueTrend period docs).map (fun pt => pt.date)).Nodup ∧
      (∀ r ∈ docs, ∀ dte, r.createdAt = some dte →
        ∃ pt ∈ getRevenueTrend period docs,
          pt.date = parseDateKey (getDateKey dte period) period) ∧
      (∀ pt ∈ getRevenueTrend period docs, ∃ r ∈ docs, ∃ dte,
        r.createdAt = some dte ∧ pt.date = parseDateKey (getDateKey dte period) period) := by
  have hkeysnodup : ((docs.foldl (trendStep period) []).map Prod.fst).Nodup :=
    foldl_trendStep_keys_nodup period docs [] (by simp)
  have hkeysrc : ∀ k ∈ (docs.foldl (trendStep period) []).map Prod.fst,
      ∃ dte : JSDate, dte.Normalized ∧ 100 ≤ dte.year ∧ k = getDateKey dte period := by
    intro k hk
    have hmem := (foldl_trendStep_keys_mem period docs [] k).mp hk
    simp only [List.map_nil, List.not_mem_nil, false_or] at hmem
    obtain ⟨r, hr, dte, hdte, rfl⟩ := hmem
    have hrd := h r hr dte hdte
    exact ⟨dte, hrd.1, hrd.2, rfl⟩
  have hkeyinj : ∀ k1 ∈ (docs.foldl (trendStep period) []).map Prod.fst,
      ∀ k2 ∈ (docs.foldl (trendStep period) []).map Prod.fst,
        (parseDateKey k1 period).getTime = (parseDateKey k2 period).getTime → k1 = k2 := by
    intro k1 h1 k2 h2 heq
    obtain ⟨d1, hn1, hy1, rfl⟩ := hkeysrc k1 h1
    obtain ⟨d2, hn2, hy2, rfl⟩ := hkeysrc k2 h2
    rw [parseDateKey_getDateKey period d1 hn1 hy1,
      parseDateKey_getDateKey period d2 hn2 hy2] at heq
    have htr := getTime_inj (truncDate_normalized period hn1)
      (truncDate_normalized period hn2) heq
    calc getDateKey d1 period
        = getDateKey (truncDate period d1) period := (getDateKey_trunc period d1).symm
      _ = getDateKey (truncDate period d2) period := by rw [htr]
      _ = getDateKey d2 period := getDateKey_trunc period d2
  have hTnodup : (((docs.foldl (trendStep period) []).map
      (fun kv => TrendPoint.mk (parseDateKey kv.1 period) kv.2.revenue kv.2.orders
        kv.2.profit)).map (fun pt => pt.date.getTime)).Nodup := by
    rw [List.map_map]
    have hmm : ((fun pt : TrendPoint => pt.date.getTime) ∘
        (fun kv : String × TrendBucket =>
          TrendPoint.mk (parseDateKey kv.1 period) kv.2.revenue kv.2.orders kv.2.profit)) =
        (fun k => (parseDateKey k period).getTime) ∘ Prod.fst := rfl
    rw [hmm, ← List.map_map]
    exact List.Nodup.map_on
      (fun k1 h1 k2 h2 he => hkeyinj k1 h1 k2 h2 he) hkeysnodup
  letI : IsTotal TrendPoint (fun a b => a.date.getTime ≤ b.date.getTime) :=
    ⟨fun a b => le_total _ _⟩
  letI : IsTrans TrendPoint (fun a b => a.date.getTime ≤ b.date.getTime) :=
    ⟨fun a b c h1 h2 => le_trans h1 h2⟩
  have hsorted := List.sorted_insertionSort
    (fun a b : TrendPoint => a.date.getTime ≤ b.date.getTime)
    ((docs.foldl (trendStep period) []).map
      (fun kv => TrendPoint.mk (parseDateKey kv.1 period) kv.2.revenue kv.2.orders kv.2.profit))
  have hperm := List.perm_insertionSort
    (fun a b : TrendPoint => a.date.getTime ≤ b.date.getTime)
    ((docs.foldl (trendStep period) []).map
      (fun kv => TrendPoint.mk (parseDateKey kv.1 period) kv.2.revenue kv.2.orders kv.2.profit))
  have houtT : ((getRevenueTrend period docs).map (fun pt => pt.date.getTime)).Nodup := by
    unfold getRevenueTrend
    exact ((hperm.map (fun pt => pt.date.getTime)).nodup_iff).mpr hTnodup
  refine ⟨?_, ?_, ?_, ?_⟩
  · have hne : (getRevenueTrend period docs).Pairwise
        (fun a b => a.date.getTime ≠ b.date.getTime) := by
      have := houtT
      rw [List.Nodup, List.pairwise_map] at this
      exact this
    have hle : (getRevenueTrend period docs).Pairwise
        (fun a b => a.date.getTime ≤ b.date.getTime) := hsorted
    exact ((hle.and hne).imp (fun hab => lt_of_le_of_ne hab.1 hab.2)).chain'
  · have := houtT
    rw [show (fun pt : TrendPoint => pt.date.getTime) =
      JSDate.getTime ∘ (fun pt : TrendPoint => pt.date) from rfl, ← List.map_map] at this
    exact this.of_map
  · intro r hr dte hdte
    have hkmem : getDateKey dte period ∈ (docs.foldl (trendStep period) []).map Prod.fst :=
      (foldl_trendStep_keys_mem period docs [] _).mpr (.inr ⟨r, hr, dte, hdte, rfl⟩)
    rw [List.mem_map] at hkmem
    obtain ⟨kv, hkv, hk⟩ := hkmem
    refine ⟨TrendPoint.mk (parseDateKey kv.1 period) kv.2.revenue kv.2.orders kv.2.profit,
      ?_, by rw [hk]⟩
    unfold getRevenueTrend
    exact hperm.mem_iff.mpr (List.mem_map_of_mem _ hkv)
  · intro pt hpt
    unfold getRevenueTrend at hpt
    have hpts := hperm.mem_iff.mp hpt
    rw [List.mem_map] at hpts
    obtain ⟨kv, hkv, rfl⟩ := hpts
    have hkmem : kv.1 ∈ (docs.foldl (trendStep period) []).map Prod.fst :=
      List.mem_map_of_mem _ hkv
    have := (foldl_trendStep_keys_mem period docs [] kv.1).mp hkmem
    simp only [List.map_nil, List.not_mem_nil, false_or] at this
    obtain ⟨r, hr, dte, hdte, hk⟩ := this
    exact ⟨r, hr, dte, hdte, by rw [hk]⟩

/-- C9 witness at a concrete record list. -/
theorem trend_sorted_strict_witness :
    List.Chain' (fun a b => a.date.getTime < b.date.getTime)
      (getRevenueTrend "week" [⟨some ⟨2024, 5, 15, 0⟩, some 100, none⟩]) ∧
      ((getRevenueTrend "week" [⟨some ⟨2024, 5, 15, 0⟩, some 100, none⟩]).map
        (fun pt => pt.date)).Nodup := by
  have h := trend_sorted_strict "week" [⟨some ⟨2024, 5, 15, 0⟩, some 100, none⟩]
    (by
      intro r hr dte hdte
      simp only [List.mem_singleton] at hr
      subst hr
      simp only [Option.some.injEq] at hdte
      subst hdte
      exact ⟨by decide, by decide⟩)
  exact ⟨h.1, h.2.1⟩

/-! ## Claim C6: geographic accumulation policy -/

/-- C6: with exactly the two scenario orders for BR (one completed for
100, one pending for 50) in range and no quotes-collection data at all,
the geographic breakdown returns a single row for Brazil with quotes 2
(each order counts as interest because no inquiry data exists),
conversions 1 and revenue 100 (only the fulfilled order converts). -/
theorem getGeographicData_scenario :
    getGeographicData
        [⟨none, some "BR", none, none, none, none, none, some "completed", some 100, none⟩,
          ⟨none, some "BR", none, none, none, none, none, some "pending", some 50, none⟩]
        [] =
      [⟨"Brazil", "BR", Region.LATAM, 2, 1, 100⟩] := by
  have h3 : getGeographicData
      [⟨none, some "BR", none, none, none, none, none, some "completed", some 100, none⟩,
        ⟨none, some "BR", none, none, none, none, none, some "pending", some 50, none⟩]
      [] =
      [⟨"Brazil", "BR", Region.LATAM, 2, 1, 0 + 100⟩] := rfl
  rw [h3]
  norm_num

/-! ## Claim C8: activity feed merger -/

/-- C8: the merged activity feed never exceeds the caller-requested
maximum, is sorted descending by timestamp, and under a failure
configuration of the four sources (in particular a forced failure of
exactly one source, served by its fallback query) the feed still contains
exactly the items of the four fetched lists whenever they fit in the cap,
so the three healthy kinds are merged unharmed. -/
theorem activity_feed_merge (maxItems : Nat) (bo bp bg bu : Bool)
    (lo1 lo2 lp1 lp2 lg1 lg2 lu1 lu2 : List AdminActivityItem) :
    (getRecentActivity maxItems bo bp bg bu lo1 lo2 lp1 lp2 lg1 lg2 lu1 lu2).length ≤
        maxItems ∧
      (getRecentActivity maxItems bo bp bg bu lo1 lo2 lp1 lp2 lg1 lg2 lu1 lu2).Pairwise
        (fun a b => b.timestamp ≤ a.timestamp) ∧
      ((safeQuery bo lo1 lo2 ++ safeQuery bp lp1 lp2 ++ safeQuery bg lg1 lg2 ++
            safeQuery bu lu1 lu2).length ≤ maxItems →
        ∀ x, x ∈ getRecentActivity maxItems bo bp bg bu lo1 lo2 lp1 lp2 lg1 lg2 lu1 lu2 ↔
          x ∈ safeQuery bo lo1 lo2 ++ safeQuery bp lp1 lp2 ++ safeQuery bg lg1 lg2 ++
            safeQuery bu lu1 lu2) := by
  letI : IsTotal AdminActivityItem (fun a b => b.timestamp ≤ a.timestamp) :=
    ⟨fun a b => le_total b.timestamp a.timestamp⟩
  letI : IsTrans AdminActivityItem (fun a b => b.timestamp ≤ a.timestamp) :=
    ⟨fun a b c h1 h2 => le_trans h2 h1⟩
  have hsorted := List.sorted_insertionSort
    (fun a b : AdminActivityItem => b.timestamp ≤ a.timestamp)
    (safeQuery bo lo1 lo2 ++ safeQuery bp lp1 lp2 ++ safeQuery bg lg1 lg2 ++
      safeQuery bu lu1 lu2)
  have hperm := List.perm_insertionSort
    (fun a b : AdminActivityItem => b.timestamp ≤ a.timestamp)
    (safeQuery bo lo1 lo2 ++ safeQuery bp lp1 lp2 ++ safeQuery bg lg1 lg2 ++
      safeQuery bu lu1 lu2)
  refine ⟨?_, ?_, ?_⟩
  · unfold getRecentActivity
    simp [List.length_take]
  · unfold getRecentActivity
    exact List.Pairwise.sublist (List.take_sublist _ _) hsorted
  · intro hlen x
    unfold getRecentActivity
    rw [List.take_of_length_le (by rw [hperm.length_eq]; exact hlen)]
    exact hperm.mem_iff

/-- C8 witness: with the orders source forced to fail (its fallback still
served) and three healthy sources, a healthy product item is in the merged
feed. -/
theorem activity_feed_merge_witness :
    (⟨AdminActivityType.product, 3⟩ : AdminActivityItem) ∈
      getRecentActivity 10 true false false false
        [⟨.order, 99⟩] [⟨.order, 5⟩] [⟨.product, 3⟩] [] [⟨.gallery, 7⟩] [] [⟨.user, 1⟩] [] :=
  ((activity_feed_merge 10 true false false false
      [⟨.order, 99⟩] [⟨.order, 5⟩] [⟨.product, 3⟩] [] [⟨.gallery, 7⟩] [] [⟨.user, 1⟩] []).2.2
    (by decide) ⟨AdminActivityType.product, 3⟩).mpr (by decide)

end LuxMining
